import Mathlib

/-!
Verification of the `windsuy` backend: a centroid-based object tracker
(`backend/tracker.py`) and the frame-processing pipeline around it
(`backend/vision.py`, `backend/main.py`).

Embedding conventions:

* Bounding boxes are integer 4-tuples `(x, y, w, h)`; Python ints are `Int`.
* `CentroidTracker.objects` and `CentroidTracker.disappeared` are two
  `OrderedDict`s that always hold the same keys in the same insertion
  order (`register` appends to both, `deregister` pops both, `update`
  writes existing keys of both in place, which keeps their position).
  We embed the pair as one insertion-ordered association list
  `List (Nat × TrackedObject)` where `TrackedObject` bundles the box and
  the disappeared counter.
* The source computes the Euclidean distance matrix
  `np.linalg.norm(a[:,None,:] - b[None,:,:], axis=2)` and only ever
  compares distances with each other (`argmin`, `argsort`) or with
  `max_distance` (`distances[row, col] > self.max_distance`).  Since
  `x ↦ √x` is strictly monotone on nonnegative reals, carrying the exact
  integer *squared* distance and the square `max_dist_sq` of
  `max_distance` preserves every comparison the algorithm makes (the
  default `max_distance = 80.0` becomes `max_dist_sq = 6400`; pixel-scale
  inputs keep the float `sqrt` exact enough to separate distinct integer
  squares).
* `np.argmin(axis=1)` returns the first column attaining the row minimum;
  `np.argsort` on the vector of row minima is embedded as the stable sort
  of the row indices, i.e. the sort by the lexicographic key
  `(row_min, row_index)` (for equal keys NumPy's small-array insertion
  sort keeps index order, which is the behaviour the tracker relies on).
* The Python loops `for row in unassigned_rows` / `for col in
  unassigned_cols` iterate over sets of small ints, which CPython yields
  in ascending order; each iteration touches a distinct key, so the row
  loop is a `filterMap` over the entries and the column loop a fold of
  `register` over the ascending unassigned column indices.
-/

namespace Windsuy

/-- A bounding box `(x, y, w, h)` in pixel coordinates
(`Tuple[int, int, int, int]` in the source). -/
structure Rect where
  x : Int
  y : Int
  w : Int
  h : Int
deriving DecidableEq, Repr

/-- One tracked object: the value stored for an id in `self.objects`
(its current box) together with the value stored for the same id in
`self.disappeared` (its consecutive-miss counter). -/
structure TrackedObject where
  box : Rect
  disappeared : Nat
deriving DecidableEq, Repr

/-- State of `CentroidTracker`: `next_object_id`, the insertion-ordered
id → object association (embedding the parallel `objects` /
`disappeared` OrderedDicts), and the two configuration fields.
`max_dist_sq` is the square of the source's `max_distance`
(default `80.0`, hence default `6400` here); see the header comment. -/
structure CentroidTracker where
  next_object_id : Nat
  objects : List (Nat × TrackedObject)
  max_disappeared : Nat
  max_dist_sq : Int
deriving DecidableEq, Repr

/-- `CentroidTracker.__init__` with all defaults
(`max_disappeared=15`, `max_distance=80.0`, i.e. `max_dist_sq = 6400`). -/
def CentroidTracker.init : CentroidTracker :=
  { next_object_id := 0, objects := [], max_disappeared := 15, max_dist_sq := 6400 }

/-- `CentroidTracker.register`: store the rect under `next_object_id`
with disappeared count 0 (appending to both OrderedDicts), then
increment `next_object_id`. -/
def CentroidTracker.register (t : CentroidTracker) (rect : Rect) : CentroidTracker :=
  { t with
      objects := t.objects ++ [(t.next_object_id, ⟨rect, 0⟩)]
      next_object_id := t.next_object_id + 1 }

/-- `CentroidTracker.deregister`: pop the id from both OrderedDicts. -/
def CentroidTracker.deregister (t : CentroidTracker) (object_id : Nat) : CentroidTracker :=
  { t with objects := t.objects.filter (fun p => p.1 ≠ object_id) }

/-- `_compute_centroids` on one rect: `(int(x + w / 2), int(y + h / 2))`.
Python's `int()` truncates the float `x + w / 2` toward zero, and for
pixel-scale ints the float arithmetic is exact, so the result is the
truncated quotient `(2x + w) tdiv 2` (and likewise for `y`, `h`). -/
def compute_centroid (r : Rect) : Int × Int :=
  ((2 * r.x + r.w).tdiv 2, (2 * r.y + r.h).tdiv 2)

/-- `_compute_centroids` over a list of rects. -/
def compute_centroids (rects : List Rect) : List (Int × Int) :=
  rects.map compute_centroid

/-- Squared Euclidean distance between two centroids; stands for the
square of the `np.linalg.norm` entry of `_pairwise_distances` (see the
header comment on why carrying squares is faithful). -/
def sqDist (a b : Int × Int) : Int :=
  (a.1 - b.1) * (a.1 - b.1) + (a.2 - b.2) * (a.2 - b.2)

/-- Entry `(r, c)` of the (squared) distance matrix between the
existing-object centroids `oc` (rows) and the detection centroids `ic`
(columns).  Out-of-range indices never occur in the algorithm; `getD`
keeps the function total. -/
def dmat (oc ic : List (Int × Int)) (r c : Nat) : Int :=
  sqDist (oc.getD r (0, 0)) (ic.getD c (0, 0))

/-- Running arg-min over a list of candidate columns, keeping the first
candidate attaining the minimum (ties broken by `<`, so an equal later
candidate never replaces an earlier one) — the behaviour of
`np.argmin`. -/
def argminFrom (f : Nat → Int) (b : Nat) : List Nat → Nat
  | [] => b
  | c :: cs => argminFrom f (if f c < f b then c else b) cs

/-- `distances.argmin(axis=1)` at row `r`: the first column of
`[0, …, n-1]` minimising the distance to row `r`. -/
def argminRow (oc ic : List (Int × Int)) (r : Nat) : Nat :=
  argminFrom (dmat oc ic r) 0 (List.range ic.length)

/-- `distances.min(axis=1)` at row `r` (the value at the arg-min
column). -/
def rowMin (oc ic : List (Int × Int)) (r : Nat) : Int :=
  dmat oc ic r (argminRow oc ic r)

/-- The comparison `argsort` effectively sorts row indices by: strictly
smaller row minimum first, ties by index (the stable order). -/
def rowLe (oc ic : List (Int × Int)) (i j : Nat) : Bool :=
  decide (rowMin oc ic i < rowMin oc ic j ∨ (rowMin oc ic i = rowMin oc ic j ∧ i ≤ j))

/-- Insert into a list sorted by `le`, before the first element not
below the inserted one. -/
def insertSorted (le : Nat → Nat → Bool) (a : Nat) : List Nat → List Nat
  | [] => [a]
  | b :: l => if le a b then a :: b :: l else b :: insertSorted le a l

/-- Insertion sort by a boolean comparison.  `rowLe` is a total order
(ties in the row minimum are split by the index), so sorting by it has a
unique result: this is exactly the stable `argsort` order. -/
def sortByLe (le : Nat → Nat → Bool) : List Nat → List Nat
  | [] => []
  | a :: l => insertSorted le a (sortByLe le l)

/-- `distances.min(axis=1).argsort()`: the row indices `0, …, m-1`
stably sorted by their row minimum (equal minima keep index order; see
the header comment). -/
def rowOrder (oc ic : List (Int × Int)) : List Nat :=
  sortByLe (rowLe oc ic) (List.range oc.length)

/-- One iteration of the greedy loop `for row, col in zip(rows, cols)`:
skip the pair if its row or column is already assigned, skip it if the
distance exceeds `max_distance` (in squares: `max_dist_sq < dmat …`),
otherwise record the assignment. -/
def greedyStep (mds : Int) (oc ic : List (Int × Int))
    (acc : List (Nat × Nat)) (rc : Nat × Nat) : List (Nat × Nat) :=
  if acc.any (fun p => p.1 == rc.1) || acc.any (fun p => p.2 == rc.2) then acc
  else if mds < dmat oc ic rc.1 rc.2 then acc
  else acc ++ [rc]

/-- The `(row, col)` pairs the greedy loop processes, in processing
order: rows in `rowOrder`, each paired with its arg-min column
(`cols = distances.argmin(axis=1)[rows]`). -/
def candidatePairs (oc ic : List (Int × Int)) : List (Nat × Nat) :=
  (rowOrder oc ic).map fun r => (r, argminRow oc ic r)

/-- The accepted assignments of one `update` tick, in acceptance
order. -/
def assignments (mds : Int) (oc ic : List (Int × Int)) : List (Nat × Nat) :=
  (candidatePairs oc ic).foldl (greedyStep mds oc ic) []

/-- The existing-object centroids of one `update` tick (the matrix
rows). -/
def objCentroids (t : CentroidTracker) : List (Int × Int) :=
  compute_centroids (t.objects.map fun p => p.2.box)

/-- The accepted `(row, col)` assignments of one `update t rects` tick. -/
def tickAssignments (t : CentroidTracker) (rects : List Rect) : List (Nat × Nat) :=
  assignments t.max_dist_sq (objCentroids t) (compute_centroids rects)

/-- Aging of one entry when its row receives no detection: increment
the disappeared counter, drop the entry when the counter now exceeds
`max_disappeared` (the body of both deregistration loops). -/
def ageFn (t : CentroidTracker) (p : Nat × TrackedObject) : Option (Nat × TrackedObject) :=
  let d := p.2.disappeared + 1
  if t.max_disappeared < d then none else some (p.1, ⟨p.2.box, d⟩)

/-- What happens to the entry at row `ie.1` during the main branch:
an assigned row takes the matched detection's box with a reset counter,
an unassigned row ages via `ageFn`'s rule. -/
def keepFn (t : CentroidTracker) (rects : List Rect) (asg : List (Nat × Nat))
    (ie : Nat × (Nat × TrackedObject)) : Option (Nat × TrackedObject) :=
  match asg.find? (fun rc => rc.1 == ie.1) with
  | some rc => some (ie.2.1, ⟨rects.getD rc.2 ie.2.2.box, 0⟩)
  | none =>
    let d := ie.2.2.disappeared + 1
    if t.max_disappeared < d then none else some (ie.2.1, ⟨ie.2.2.box, d⟩)

/-- The surviving previously-tracked entries of one main-branch tick,
in their original insertion order. -/
def keptEntries (t : CentroidTracker) (rects : List Rect) : List (Nat × TrackedObject) :=
  t.objects.enum.filterMap (keepFn t rects (tickAssignments t rects))

/-- The detection columns left unassigned by the greedy pass, in
ascending order. -/
def unassignedColsOf (t : CentroidTracker) (rects : List Rect) : List Nat :=
  (List.range rects.length).filter fun c => ! (tickAssignments t rects).any (fun rc => rc.2 == c)

/-- The main branch of `update` (non-empty detections, non-empty tracked
set): accepted rows get the matched detection's box and a reset counter;
unassigned rows age and possibly expire; unassigned columns are
registered in ascending order. -/
def CentroidTracker.updateMain (t : CentroidTracker) (rects : List Rect) : CentroidTracker :=
  (unassignedColsOf t rects).foldl (fun s c => s.register (rects.getD c ⟨0, 0, 0, 0⟩))
    { t with objects := keptEntries t rects }

/-- `CentroidTracker.update`.  Branches exactly as the source:
empty detection list → age every object and drop the expired ones;
empty tracked set → register every detection; otherwise the greedy
matching of `updateMain`.  The source returns `self.objects`; here the
returned mapping is the `objects` field of the returned state. -/
def CentroidTracker.update (t : CentroidTracker) (rects : List Rect) : CentroidTracker :=
  if rects.isEmpty then
    { t with objects := t.objects.filterMap (ageFn t) }
  else if t.objects.isEmpty then
    rects.foldl CentroidTracker.register t
  else
    t.updateMain rects

/-! ## Helper lemmas about the tracker's building blocks -/

/-- In an association list with nodup keys, the key determines the
entry. -/
theorem keyUnique {α : Type} {l : List (Nat × α)} (h : (l.map Prod.fst).Nodup)
    {p q : Nat × α} (hp : p ∈ l) (hq : q ∈ l) (hk : p.1 = q.1) : p = q := by
  induction l with
  | nil => cases hp
  | cons a l ih =>
    rw [List.map_cons, List.nodup_cons] at h
    rcases List.mem_cons.mp hp with hpa | hpl <;>
      rcases List.mem_cons.mp hq with hqa | hql
    · rw [hpa, hqa]
    · have hmem : q.1 ∈ List.map Prod.fst l := List.mem_map_of_mem Prod.fst hql
      rw [← hk, hpa] at hmem
      exact absurd hmem h.1
    · have hmem : p.1 ∈ List.map Prod.fst l := List.mem_map_of_mem Prod.fst hpl
      rw [hk, hqa] at hmem
      exact absurd hmem h.1
    · exact ih h.2 hpl hql

/-- A `filterMap` that succeeds everywhere is a `map`. -/
theorem filterMap_eq_map_of {α β : Type} {f : α → Option β} {g : α → β} :
    ∀ {l : List α}, (∀ a ∈ l, f a = some (g a)) → l.filterMap f = l.map g := by
  intro l
  induction l with
  | nil => intro _; rfl
  | cons a l ih =>
    intro h
    rw [List.filterMap_cons, h a (List.mem_cons_self a l), List.map_cons,
      ih fun b hb => h b (List.mem_cons_of_mem a hb)]

/-- A `filterMap` each of whose hits agrees with `g` yields a sublist of
`map g`. -/
theorem filterMap_sublist_map {α β : Type} {f : α → Option β} {g : α → β} :
    ∀ {l : List α}, (∀ a ∈ l, f a = none ∨ f a = some (g a)) →
      (l.filterMap f).Sublist (l.map g) := by
  intro l
  induction l with
  | nil => intro _; simp
  | cons a l ih =>
    intro h
    have hl := ih fun b hb => h b (List.mem_cons_of_mem a hb)
    rcases h a (List.mem_cons_self a l) with ha | ha
    · rw [List.filterMap_cons, ha, List.map_cons]
      exact hl.cons (g a)
    · rw [List.filterMap_cons, ha, List.map_cons]
      exact hl.cons₂ (g a)

/-- The first projection of a key-preserving `filterMap` is a sublist of
the keys. -/
theorem filterMap_fst_sublist {α β γ : Type} {l : List α} {f : α → Option (γ × β)}
    {g : α → γ} (hf : ∀ a ∈ l, f a = none ∨ ∃ b, f a = some (g a, b)) :
    ((l.filterMap f).map Prod.fst).Sublist (l.map g) := by
  rw [List.map_filterMap]
  refine filterMap_sublist_map fun a ha => ?_
  rcases hf a ha with h | ⟨b, h⟩
  · exact Or.inl (by rw [h]; rfl)
  · exact Or.inr (by rw [h]; rfl)

/-- `argminFrom` never increases the running value. -/
theorem argminFrom_le_base (f : Nat → Int) :
    ∀ (cs : List Nat) (b : Nat), f (argminFrom f b cs) ≤ f b := by
  intro cs
  induction cs with
  | nil => intro b; exact le_refl _
  | cons c cs ih =>
    intro b
    rw [argminFrom]
    by_cases h : f c < f b
    · simpa [h] using le_trans (ih c) (le_of_lt h)
    · simpa [h] using ih b

/-- The value at `argminFrom` is minimal among the candidates. -/
theorem argminFrom_le (f : Nat → Int) :
    ∀ (cs : List Nat) (b : Nat), ∀ c ∈ cs, f (argminFrom f b cs) ≤ f c := by
  intro cs
  induction cs with
  | nil => intro b c hc; cases hc
  | cons c₀ cs ih =>
    intro b c hc
    rcases List.mem_cons.mp hc with rfl | hcs
    · rw [argminFrom]
      by_cases h : f c < f b
      · simpa [h] using argminFrom_le_base f cs c
      · simpa [h] using le_trans (argminFrom_le_base f cs b) (le_of_not_lt h)
    · rw [argminFrom]
      by_cases h : f c₀ < f b <;> simp [h] <;> exact ih _ c hcs

/-- `argminFrom` returns the start value or a candidate. -/
theorem argminFrom_mem (f : Nat → Int) :
    ∀ (cs : List Nat) (b : Nat), argminFrom f b cs = b ∨ argminFrom f b cs ∈ cs := by
  intro cs
  induction cs with
  | nil => intro b; exact Or.inl rfl
  | cons c cs ih =>
    intro b
    rw [argminFrom]
    by_cases h : f c < f b
    · simp only [h, if_pos]
      rcases ih c with h' | h'
      · exact Or.inr (by rw [h']; exact List.mem_cons_self c cs)
      · exact Or.inr (List.mem_cons_of_mem c h')
    · simp only [h, if_neg, if_false]
      rcases ih b with h' | h'
      · exact Or.inl h'
      · exact Or.inr (List.mem_cons_of_mem c h')

/-- With at least one detection, the arg-min column is a real column. -/
theorem argminRow_lt (oc ic : List (Int × Int)) (r : Nat) (hn : 0 < ic.length) :
    argminRow oc ic r < ic.length := by
  rcases argminFrom_mem (dmat oc ic r) (List.range ic.length) 0 with h | h
  · rw [argminRow, h]; exact hn
  · exact List.mem_range.mp (by rw [argminRow] at *; exact h)

/-- The row minimum is a lower bound of the whole row. -/
theorem rowMin_le (oc ic : List (Int × Int)) (r c : Nat) (hc : c < ic.length) :
    rowMin oc ic r ≤ dmat oc ic r c :=
  argminFrom_le (dmat oc ic r) (List.range ic.length) 0 c (List.mem_range.mpr hc)

/-- Inserting into a sorted list permutes the extended list. -/
theorem insertSorted_perm (le : Nat → Nat → Bool) (a : Nat) :
    ∀ l : List Nat, (insertSorted le a l).Perm (a :: l) := by
  intro l
  induction l with
  | nil => exact List.Perm.refl _
  | cons b l ih =>
    rw [insertSorted]
    split
    · exact List.Perm.refl _
    · exact (ih.cons b).trans (List.Perm.swap a b l)

/-- The insertion sort permutes its input. -/
theorem sortByLe_perm (le : Nat → Nat → Bool) :
    ∀ l : List Nat, (sortByLe le l).Perm l := by
  intro l
  induction l with
  | nil => exact List.Perm.refl _
  | cons a l ih =>
    rw [sortByLe]
    exact (insertSorted_perm le a (sortByLe le l)).trans (ih.cons a)

/-- Inserting into a sorted list keeps it sorted (for a total,
transitive comparison). -/
theorem insertSorted_pairwise (le : Nat → Nat → Bool)
    (htrans : ∀ x y z, le x y = true → le y z = true → le x z = true)
    (htot : ∀ x y, (le x y || le y x) = true) (a : Nat) :
    ∀ l : List Nat, l.Pairwise (fun i j => le i j = true) →
      (insertSorted le a l).Pairwise fun i j => le i j = true := by
  intro l
  induction l with
  | nil => intro _; exact List.pairwise_singleton _ _
  | cons b l ih =>
    intro h
    rw [List.pairwise_cons] at h
    rw [insertSorted]
    split
    · rename_i hab
      rw [List.pairwise_cons]
      refine ⟨fun x hx => ?_, List.pairwise_cons.mpr h⟩
      rcases List.mem_cons.mp hx with rfl | hx'
      · exact hab
      · exact htrans a b x hab (h.1 x hx')
    · rename_i hab
      rw [List.pairwise_cons]
      refine ⟨fun x hx => ?_, ih h.2⟩
      have hmem : x ∈ a :: l := (insertSorted_perm le a l).subset hx
      rcases List.mem_cons.mp hmem with hxa | hx'
      · rw [hxa]
        have hba := htot a b
        rw [Bool.or_eq_true] at hba
        rcases hba with h' | h'
        · exact absurd h' hab
        · exact h'
      · exact h.1 x hx'

/-- The insertion sort sorts (for a total, transitive comparison). -/
theorem sortByLe_pairwise (le : Nat → Nat → Bool)
    (htrans : ∀ x y z, le x y = true → le y z = true → le x z = true)
    (htot : ∀ x y, (le x y || le y x) = true) :
    ∀ l : List Nat, (sortByLe le l).Pairwise fun i j => le i j = true := by
  intro l
  induction l with
  | nil => exact List.Pairwise.nil
  | cons a l ih =>
    rw [sortByLe]
    exact insertSorted_pairwise le htrans htot a _ ih

/-- The processing order of rows is a permutation of all row indices. -/
theorem rowOrder_perm (oc ic : List (Int × Int)) :
    (rowOrder oc ic).Perm (List.range oc.length) :=
  sortByLe_perm _ _

/-- No row index repeats in the processing order. -/
theorem rowOrder_nodup (oc ic : List (Int × Int)) : (rowOrder oc ic).Nodup :=
  (rowOrder_perm oc ic).symm.nodup (List.nodup_range oc.length)

/-- A row index is processed iff it indexes an existing object. -/
theorem rowOrder_mem (oc ic : List (Int × Int)) (r : Nat) :
    r ∈ rowOrder oc ic ↔ r < oc.length := by
  rw [(rowOrder_perm oc ic).mem_iff, List.mem_range]

/-- The processing order is sorted by row minimum, ties by index. -/
theorem rowOrder_pairwise (oc ic : List (Int × Int)) :
    (rowOrder oc ic).Pairwise fun i j =>
      rowMin oc ic i < rowMin oc ic j ∨ (rowMin oc ic i = rowMin oc ic j ∧ i ≤ j) := by
  have htrans : ∀ a b c : Nat, rowLe oc ic a b = true → rowLe oc ic b c = true →
      rowLe oc ic a c = true := by
    intro a b c hab hbc
    rw [rowLe, decide_eq_true_eq] at *
    rcases hab with h₁ | ⟨h₁, h₁'⟩ <;> rcases hbc with h₂ | ⟨h₂, h₂'⟩
    · exact Or.inl (lt_trans h₁ h₂)
    · exact Or.inl (h₂ ▸ h₁)
    · exact Or.inl (h₁ ▸ h₂)
    · exact Or.inr ⟨h₁.trans h₂, le_trans h₁' h₂'⟩
  have htotal : ∀ a b : Nat, (rowLe oc ic a b || rowLe oc ic b a) = true := by
    intro a b
    rw [Bool.or_eq_true, rowLe, rowLe, decide_eq_true_eq, decide_eq_true_eq]
    rcases lt_trichotomy (rowMin oc ic a) (rowMin oc ic b) with h | h | h
    · exact Or.inl (Or.inl h)
    · rcases Nat.le_total a b with h' | h'
      · exact Or.inl (Or.inr ⟨h, h'⟩)
      · exact Or.inr (Or.inr ⟨h.symm, h'⟩)
    · exact Or.inr (Or.inl h)
  have h := sortByLe_pairwise (rowLe oc ic) htrans htotal (List.range oc.length)
  exact h.imp fun hab => by rwa [rowLe, decide_eq_true_eq] at hab

/-- The greedy fold only appends: what is assigned stays assigned. -/
theorem greedy_mono (mds : Int) (oc ic : List (Int × Int)) :
    ∀ (l : List (Nat × Nat)) (acc : List (Nat × Nat)),
      ∀ x ∈ acc, x ∈ l.foldl (greedyStep mds oc ic) acc := by
  intro l
  induction l with
  | nil => intro acc x hx; exact hx
  | cons a l ih =>
    intro acc x hx
    rw [List.foldl_cons]
    refine ih _ x ?_
    rw [greedyStep]
    split
    · exact hx
    · split
      · exact hx
      · exact List.mem_append_left _ hx

/-- Everything the greedy fold adds is a processed pair within
`max_distance`. -/
theorem greedy_mem (mds : Int) (oc ic : List (Int × Int)) :
    ∀ (l : List (Nat × Nat)) (acc : List (Nat × Nat)) (x : Nat × Nat),
      x ∈ l.foldl (greedyStep mds oc ic) acc →
      x ∈ acc ∨ (x ∈ l ∧ dmat oc ic x.1 x.2 ≤ mds) := by
  intro l
  induction l with
  | nil => intro acc x hx; exact Or.inl hx
  | cons a l ih =>
    intro acc x hx
    rw [List.foldl_cons] at hx
    rcases ih _ x hx with hmem | ⟨hl, hd⟩
    · rw [greedyStep] at hmem
      split at hmem
      · exact Or.inl hmem
      · split at hmem
        · exact Or.inl hmem
        · rcases List.mem_append.mp hmem with h | h
          · exact Or.inl h
          · rename_i hdist
            have hxa := List.mem_singleton.mp h
            refine Or.inr ⟨?_, ?_⟩
            · rw [hxa]; exact List.mem_cons_self a l
            · rw [hxa]; exact le_of_not_lt hdist
    · exact Or.inr ⟨List.mem_cons_of_mem a hl, hd⟩

/-- The greedy fold never assigns a row or a column twice. -/
theorem greedy_pairwise (mds : Int) (oc ic : List (Int × Int)) :
    ∀ (l : List (Nat × Nat)) (acc : List (Nat × Nat)),
      acc.Pairwise (fun a b => a.1 ≠ b.1 ∧ a.2 ≠ b.2) →
      (l.foldl (greedyStep mds oc ic) acc).Pairwise fun a b => a.1 ≠ b.1 ∧ a.2 ≠ b.2 := by
  intro l
  induction l with
  | nil => intro acc h; exact h
  | cons a l ih =>
    intro acc h
    rw [List.foldl_cons]
    refine ih _ ?_
    rw [greedyStep]
    split
    · exact h
    · split
      · exact h
      · rename_i hskip _
        rw [List.pairwise_append]
        refine ⟨h, List.pairwise_singleton _ _, ?_⟩
        intro p hp b hb
        rw [List.mem_singleton.mp hb]
        rw [Bool.or_eq_true, not_or] at hskip
        constructor
        · intro hfst
          exact hskip.1 (List.any_eq_true.mpr ⟨p, hp, beq_iff_eq.mpr hfst⟩)
        · intro hsnd
          exact hskip.2 (List.any_eq_true.mpr ⟨p, hp, beq_iff_eq.mpr hsnd⟩)

/-! ## Well-formedness of tracker states and registration lemmas -/

/-- Key invariant of every tracker state the class builds: the ids of
the OrderedDict are distinct, and all lie below `next_object_id`
(`register` hands out `next_object_id` and then bumps it). -/
def WF (t : CentroidTracker) : Prop :=
  (t.objects.map Prod.fst).Nodup ∧ ∀ i ∈ t.objects.map Prod.fst, i < t.next_object_id

instance (t : CentroidTracker) : Decidable (WF t) := by
  unfold WF; infer_instance

theorem registerAll_next :
    ∀ (rects : List Rect) (t : CentroidTracker),
      (rects.foldl CentroidTracker.register t).next_object_id
        = t.next_object_id + rects.length := by
  intro rects
  induction rects with
  | nil => intro t; rfl
  | cons r rects ih =>
    intro t
    rw [List.foldl_cons, ih]
    simp only [CentroidTracker.register, List.length_cons]
    omega

theorem registerAll_map_fst :
    ∀ (rects : List Rect) (t : CentroidTracker),
      ((rects.foldl CentroidTracker.register t).objects).map Prod.fst
        = t.objects.map Prod.fst ++ (List.range rects.length).map (t.next_object_id + ·) := by
  intro rects
  induction rects with
  | nil => intro t; simp
  | cons r rects ih =>
    intro t
    rw [List.foldl_cons, ih]
    simp only [CentroidTracker.register, List.map_append, List.length_cons,
      List.range_succ_eq_map, List.map_cons, List.map_map, List.append_assoc,
      List.singleton_append, Nat.add_zero]
    refine congrArg _ (congrArg _ (List.map_congr_left fun i _ => ?_))
    simp only [Function.comp_apply]
    omega

theorem registerAll_mem :
    ∀ (rects : List Rect) (t : CentroidTracker) (p : Nat × TrackedObject),
      p ∈ (rects.foldl CentroidTracker.register t).objects ↔
        p ∈ t.objects ∨ ∃ i, i < rects.length ∧
          p = (t.next_object_id + i, ⟨rects.getD i ⟨0, 0, 0, 0⟩, 0⟩) := by
  intro rects
  induction rects with
  | nil => intro t p; simp
  | cons r rects ih =>
    intro t p
    rw [List.foldl_cons, ih]
    have hreg : (CentroidTracker.register t r).objects
        = t.objects ++ [(t.next_object_id, ⟨r, 0⟩)] := rfl
    constructor
    · rintro (hp | ⟨i, hi, hp⟩)
      · rw [hreg] at hp
        rcases List.mem_append.mp hp with h | h
        · exact Or.inl h
        · refine Or.inr ⟨0, by simp, ?_⟩
          simpa using List.mem_singleton.mp h
      · refine Or.inr ⟨i + 1, by rw [List.length_cons]; omega, ?_⟩
        rw [hp]
        simp only [CentroidTracker.register, List.getD_cons_succ]
        refine Prod.ext ?_ rfl
        simp only
        omega
    · rintro (hp | ⟨i, hi, hp⟩)
      · exact Or.inl (by rw [hreg]; exact List.mem_append_left _ hp)
      · match i, hi, hp with
        | 0, _, hp =>
          refine Or.inl ?_
          rw [hreg]
          refine List.mem_append_right _ ?_
          simpa using hp
        | i + 1, hi, hp =>
          refine Or.inr ⟨i, by rw [List.length_cons] at hi; omega, ?_⟩
          rw [hp]
          simp only [CentroidTracker.register, List.getD_cons_succ]
          refine Prod.ext ?_ rfl
          simp only
          omega

theorem registerAll_wf (rects : List Rect) (t : CentroidTracker) (h : WF t) :
    WF (rects.foldl CentroidTracker.register t) := by
  constructor
  · rw [registerAll_map_fst]
    refine List.Nodup.append h.1 ?_ ?_
    · exact (List.nodup_range _).map fun a b hab => by omega
    · intro i hi hi'
      have h1 : i < t.next_object_id := h.2 i hi
      rcases List.mem_map.mp hi' with ⟨j, _, hj⟩
      omega
  · intro i hi
    rw [registerAll_map_fst] at hi
    rw [registerAll_next]
    rcases List.mem_append.mp hi with h' | h'
    · have := h.2 i h'
      omega
    · rcases List.mem_map.mp h' with ⟨j, hj, hj'⟩
      rw [List.mem_range] at hj
      omega

/-- The ids surviving a main-branch tick form a sublist of the previous
ids (in order). -/
theorem keptEntries_fst_sublist (t : CentroidTracker) (rects : List Rect) :
    ((keptEntries t rects).map Prod.fst).Sublist (t.objects.map Prod.fst) := by
  have hmap : t.objects.enum.map (fun ie => ie.2.1) = t.objects.map Prod.fst := by
    conv_rhs => rw [← List.enum_map_snd t.objects]
    rw [List.map_map]
    rfl
  rw [keptEntries, ← hmap]
  refine filterMap_fst_sublist fun ie _ => ?_
  rw [keepFn]
  split
  · exact Or.inr ⟨_, rfl⟩
  · simp only
    split
    · exact Or.inl rfl
    · exact Or.inr ⟨_, rfl⟩

/-- The ids surviving an empty-detections tick form a sublist of the
previous ids (in order). -/
theorem ageFn_fst_sublist (t : CentroidTracker) :
    ((t.objects.filterMap (ageFn t)).map Prod.fst).Sublist (t.objects.map Prod.fst) := by
  refine filterMap_fst_sublist fun p _ => ?_
  simp only [ageFn]
  split
  · exact Or.inl rfl
  · exact Or.inr ⟨_, rfl⟩

/-- One `update` call: well-formedness is preserved, the id counter
never decreases, and every id in the new state is an old id or a fresh
one at or above the old counter. -/
theorem update_wf_step (t : CentroidTracker) (rects : List Rect) (h : WF t) :
    WF (t.update rects) ∧
      t.next_object_id ≤ (t.update rects).next_object_id ∧
      ∀ i ∈ (t.update rects).objects.map Prod.fst,
        i ∈ t.objects.map Prod.fst ∨ t.next_object_id ≤ i := by
  rw [CentroidTracker.update]
  by_cases hr : rects.isEmpty
  · simp only [hr, if_true]
    have hsub := ageFn_fst_sublist t
    exact ⟨⟨hsub.nodup h.1, fun i hi => h.2 i (hsub.subset hi)⟩, le_refl _,
      fun i hi => Or.inl (hsub.subset hi)⟩
  · simp only [hr, Bool.false_eq_true, if_false]
    by_cases ho : t.objects.isEmpty
    · simp only [ho, if_true]
      refine ⟨registerAll_wf rects t h, ?_, ?_⟩
      · rw [registerAll_next]; omega
      · intro i hi
        rw [registerAll_map_fst] at hi
        rcases List.mem_append.mp hi with h' | h'
        · exact Or.inl h'
        · rcases List.mem_map.mp h' with ⟨j, _, hj⟩
          exact Or.inr (by omega)
    · simp only [ho, Bool.false_eq_true, if_false]
      rw [CentroidTracker.updateMain]
      have hfold :
          (unassignedColsOf t rects).foldl
              (fun s c => s.register (rects.getD c ⟨0, 0, 0, 0⟩))
              { t with objects := keptEntries t rects }
            = ((unassignedColsOf t rects).map fun c => rects.getD c ⟨0, 0, 0, 0⟩).foldl
                CentroidTracker.register { t with objects := keptEntries t rects } :=
        (List.foldl_map _ _ _ _).symm
      rw [hfold]
      have hsub := keptEntries_fst_sublist t rects
      have hbase : WF { t with objects := keptEntries t rects } :=
        ⟨hsub.nodup h.1, fun i hi => h.2 i (hsub.subset hi)⟩
      refine ⟨registerAll_wf _ _ hbase, ?_, ?_⟩
      · rw [registerAll_next]
        exact Nat.le_add_right _ _
      · intro i hi
        rw [registerAll_map_fst] at hi
        rcases List.mem_append.mp hi with h' | h'
        · exact Or.inl (hsub.subset h')
        · rcases List.mem_map.mp h' with ⟨j, _, hj⟩
          refine Or.inr ?_
          have hb : ({ t with objects := keptEntries t rects } :
              CentroidTracker).next_object_id = t.next_object_id := rfl
          omega

/-- C3: for every `update` call with an empty detection list and a
non-empty tracked set, every existing object's `disappeared_count`
increases by exactly 1; every object whose count then exceeds
`max_disappeared` is deregistered and its id is absent from the
returned mapping, and every other object keeps its previous box (with
the incremented count) in the returned mapping. -/
theorem update_noDetections_ages_each_object (t : CentroidTracker)
    (hne : t.objects ≠ []) (hnd : (t.objects.map Prod.fst).Nodup) :
    ∀ p ∈ t.objects,
      (t.max_disappeared < p.2.disappeared + 1 →
        p.1 ∉ (t.update []).objects.map Prod.fst) ∧
      (p.2.disappeared + 1 ≤ t.max_disappeared →
        (p.1, (⟨p.2.box, p.2.disappeared + 1⟩ : TrackedObject)) ∈ (t.update []).objects) := by
  intro p hp
  have hupd : (t.update []).objects = t.objects.filterMap (ageFn t) := rfl
  constructor
  · intro hgt hmem
    rw [hupd] at hmem
    rcases List.mem_map.mp hmem with ⟨q, hq, hql⟩
    rcases List.mem_filterMap.mp hq with ⟨p', hp', hfp'⟩
    simp only [ageFn] at hfp'
    by_cases hc : t.max_disappeared < p'.2.disappeared + 1
    · rw [if_pos hc] at hfp'; cases hfp'
    · rw [if_neg hc] at hfp'
      have hq' : (p'.1, (⟨p'.2.box, p'.2.disappeared + 1⟩ : TrackedObject)) = q :=
        Option.some.inj hfp'
      have hpp : p' = p := keyUnique hnd hp' hp (by rw [← hql, ← hq'])
      rw [hpp] at hc
      exact hc hgt
  · intro hle
    rw [hupd]
    refine List.mem_filterMap.mpr ⟨p, hp, ?_⟩
    simp only [ageFn]
    rw [if_neg (by omega)]

/-- Witness for C3 at a concrete one-object tracker. -/
theorem update_noDetections_ages_each_object_witness :
    (CentroidTracker.init.register ⟨1, 2, 3, 4⟩).objects ≠ [] ∧
      (((CentroidTracker.init.register ⟨1, 2, 3, 4⟩).objects.map Prod.fst).Nodup ∧
        ∀ p ∈ (CentroidTracker.init.register ⟨1, 2, 3, 4⟩).objects,
          ((CentroidTracker.init.register ⟨1, 2, 3, 4⟩).max_disappeared <
              p.2.disappeared + 1 →
            p.1 ∉ ((CentroidTracker.init.register ⟨1, 2, 3, 4⟩).update
              []).objects.map Prod.fst) ∧
          (p.2.disappeared + 1 ≤
              (CentroidTracker.init.register ⟨1, 2, 3, 4⟩).max_disappeared →
            (p.1, (⟨p.2.box, p.2.disappeared + 1⟩ : TrackedObject)) ∈
              ((CentroidTracker.init.register ⟨1, 2, 3, 4⟩).update []).objects)) :=
  ⟨by decide, by decide,
    update_noDetections_ages_each_object _ (by decide) (by decide)⟩

/-- C5: for every well-formed tracker state and any sequence of `update`
calls, well-formedness persists, the id counter never decreases, every
id present afterwards is either an old id or a fresh id at or above the
old counter (so every newly registered id strictly exceeds every id
assigned before it), and an id below the counter that is currently
absent — e.g. one freed by deregistration — never reappears. -/
theorem tracker_ids_monotone_never_reused (t : CentroidTracker) (h : WF t)
    (rl : List (List Rect)) :
    WF (rl.foldl CentroidTracker.update t) ∧
      t.next_object_id ≤ (rl.foldl CentroidTracker.update t).next_object_id ∧
      (∀ i ∈ (rl.foldl CentroidTracker.update t).objects.map Prod.fst,
        i ∈ t.objects.map Prod.fst ∨ t.next_object_id ≤ i) ∧
      (∀ i, i < t.next_object_id → i ∉ t.objects.map Prod.fst →
        i ∉ (rl.foldl CentroidTracker.update t).objects.map Prod.fst) := by
  induction rl generalizing t with
  | nil => exact ⟨h, le_refl _, fun i hi => Or.inl hi, fun i _ hni hmem => hni hmem⟩
  | cons r rl ih =>
    obtain ⟨hwf, hle, hids⟩ := update_wf_step t r h
    obtain ⟨ihwf, ihle, ihids, ihnr⟩ := ih (t.update r) hwf
    rw [List.foldl_cons]
    refine ⟨ihwf, le_trans hle ihle, ?_, ?_⟩
    · intro i hi
      rcases ihids i hi with h' | h'
      · rcases hids i h' with h'' | h''
        · exact Or.inl h''
        · exact Or.inr h''
      · exact Or.inr (le_trans hle h')
    · intro i hlt hni hmem
      rcases ihids i hmem with h' | h'
      · rcases hids i h' with h'' | h''
        · exact hni h''
        · omega
      · omega

/-- Witness for C5: a tracker holding id 0, driven through an aging tick
and a two-detection tick. -/
theorem tracker_ids_monotone_never_reused_witness :
    WF (CentroidTracker.init.register ⟨0, 0, 2, 2⟩) ∧
      (WF ([[], [⟨0, 0, 2, 2⟩, ⟨500, 500, 2, 2⟩]].foldl CentroidTracker.update
          (CentroidTracker.init.register ⟨0, 0, 2, 2⟩)) ∧
        (CentroidTracker.init.register ⟨0, 0, 2, 2⟩).next_object_id ≤
          ([[], [⟨0, 0, 2, 2⟩, ⟨500, 500, 2, 2⟩]].foldl CentroidTracker.update
            (CentroidTracker.init.register ⟨0, 0, 2, 2⟩)).next_object_id ∧
        (∀ i ∈ ([[], [⟨0, 0, 2, 2⟩, ⟨500, 500, 2, 2⟩]].foldl CentroidTracker.update
            (CentroidTracker.init.register ⟨0, 0, 2, 2⟩)).objects.map Prod.fst,
          i ∈ (CentroidTracker.init.register ⟨0, 0, 2, 2⟩).objects.map Prod.fst ∨
            (CentroidTracker.init.register ⟨0, 0, 2, 2⟩).next_object_id ≤ i) ∧
        (∀ i, i < (CentroidTracker.init.register ⟨0, 0, 2, 2⟩).next_object_id →
          i ∉ (CentroidTracker.init.register ⟨0, 0, 2, 2⟩).objects.map Prod.fst →
          i ∉ ([[], [⟨0, 0, 2, 2⟩, ⟨500, 500, 2, 2⟩]].foldl CentroidTracker.update
            (CentroidTracker.init.register ⟨0, 0, 2, 2⟩)).objects.map Prod.fst)) :=
  ⟨by decide, tracker_ids_monotone_never_reused _ (by decide) _⟩

/-- Truncated halving of `2a + b` is the floor of `a + b / 2` when the
numerator is nonnegative. -/
theorem tdiv_two_eq_floor (a b : Int) (h : 0 ≤ 2 * a + b) :
    (2 * a + b).tdiv 2 = ⌊(a : ℚ) + (b : ℚ) / 2⌋ := by
  rw [Int.tdiv_eq_ediv h (by norm_num)]
  have hcast : (a : ℚ) + (b : ℚ) / 2 = ((2 * a + b : ℤ) : ℚ) / ((2 : ℕ) : ℚ) := by
    push_cast
    ring
  rw [hcast, Rat.floor_intCast_div_natCast]
  norm_num

/-- Truncated halving of `2a + b` is exactly `a + b / 2` when `b` is
even. -/
theorem tdiv_two_eq_exact (a b : Int) (hb : b % 2 = 0) :
    (((2 * a + b).tdiv 2 : ℤ) : ℚ) = (a : ℚ) + (b : ℚ) / 2 := by
  obtain ⟨k, rfl⟩ : ∃ k, b = 2 * k := ⟨b / 2, by omega⟩
  have hsum : 2 * a + 2 * k = 2 * (a + k) := by ring
  rw [hsum, Int.mul_tdiv_cancel_left _ (by norm_num)]
  push_cast
  ring

/-- C6 counterexample: for the box `(0, 0, 1, 1)` the tracker's centroid
x-coordinate is `int(0 + 1 / 2) = 0`, not the geometric-center value
`0 + 1 / 2 = 1 / 2`, so the centroid does not always equal the geometric
center. -/
theorem centroid_not_geometric_center :
    ((compute_centroid ⟨0, 0, 1, 1⟩).1 : ℚ) ≠ (0 : ℚ) + 1 / 2 := by
  have h : (compute_centroid ⟨0, 0, 1, 1⟩).1 = 0 := rfl
  rw [h]
  norm_num

/-- C6 (amended): for every bounding box with nonnegative doubled center
coordinates, the centroid the tracker uses for matching is the geometric
center `(x + w/2, y + h/2)` truncated to an integer (the floor) in each
coordinate, and it equals the exact geometric center precisely when the
width (resp. height) is even. -/
theorem centroid_truncated_geometric_center (r : Rect)
    (hx : 0 ≤ 2 * r.x + r.w) (hy : 0 ≤ 2 * r.y + r.h) :
    (compute_centroid r).1 = ⌊(r.x : ℚ) + (r.w : ℚ) / 2⌋ ∧
      (compute_centroid r).2 = ⌊(r.y : ℚ) + (r.h : ℚ) / 2⌋ ∧
      (r.w % 2 = 0 → ((compute_centroid r).1 : ℚ) = (r.x : ℚ) + (r.w : ℚ) / 2) ∧
      (r.h % 2 = 0 → ((compute_centroid r).2 : ℚ) = (r.y : ℚ) + (r.h : ℚ) / 2) :=
  ⟨tdiv_two_eq_floor r.x r.w hx, tdiv_two_eq_floor r.y r.h hy,
    fun hw => tdiv_two_eq_exact r.x r.w hw, fun hh => tdiv_two_eq_exact r.y r.h hh⟩

/-- Witness for C6 (amended) at the spec's box `(100, 100, 50, 50)`. -/
theorem centroid_truncated_geometric_center_witness :
    (0 ≤ 2 * (100 : Int) + 50 ∧ 0 ≤ 2 * (100 : Int) + 50) ∧
      ((compute_centroid ⟨100, 100, 50, 50⟩).1 = ⌊(100 : ℚ) + (50 : ℚ) / 2⌋ ∧
        (compute_centroid ⟨100, 100, 50, 50⟩).2 = ⌊(100 : ℚ) + (50 : ℚ) / 2⌋ ∧
        ((50 : Int) % 2 = 0 →
          ((compute_centroid ⟨100, 100, 50, 50⟩).1 : ℚ) = (100 : ℚ) + (50 : ℚ) / 2) ∧
        ((50 : Int) % 2 = 0 →
          ((compute_centroid ⟨100, 100, 50, 50⟩).2 : ℚ) = (100 : ℚ) + (50 : ℚ) / 2)) :=
  ⟨⟨by norm_num, by norm_num⟩,
    centroid_truncated_geometric_center ⟨100, 100, 50, 50⟩ (by norm_num) (by norm_num)⟩

/-- A row none of the accepted assignments names is not found by the
per-row lookup. -/
theorem find?_asg_none (asg : List (Nat × Nat)) (i : Nat)
    (h : ∀ rc ∈ asg, rc.1 ≠ i) : asg.find? (fun rc => rc.1 == i) = none :=
  List.find?_eq_none.mpr fun rc hrc => by simpa using h rc hrc

/-- Position `i` of a list, as an entry of its enumeration. -/
theorem mem_enum_self {α : Type} (l : List α) (i : Nat) (hi : i < l.length) :
    (i, l[i]) ∈ l.enum := by
  have hl : i < l.enum.length := by rw [List.enum_length]; exact hi
  have hval : l.enum[i] = (i, l[i]) := List.getElem_enum l i hl
  rw [← hval]
  exact List.getElem_mem hl

/-- `keepFn` preserves the id of the entry it transforms. -/
theorem keepFn_fst (t : CentroidTracker) (rects : List Rect)
    (asg : List (Nat × Nat)) (ie : Nat × (Nat × TrackedObject))
    (q : Nat × TrackedObject) (h : keepFn t rects asg ie = some q) :
    q.1 = ie.2.1 := by
  rw [keepFn] at h
  split at h
  · rw [← Option.some.inj h]
  · simp only at h
    split at h
    · cases h
    · rw [← Option.some.inj h]

/-- `updateMain` is a `register` fold over the unassigned detections,
starting from the surviving entries. -/
theorem updateMain_as_registerAll (t : CentroidTracker) (rects : List Rect) :
    t.updateMain rects
      = ((unassignedColsOf t rects).map fun c => rects.getD c ⟨0, 0, 0, 0⟩).foldl
          CentroidTracker.register { t with objects := keptEntries t rects } := by
  rw [CentroidTracker.updateMain]
  exact (List.foldl_map _ _ _ _).symm

/-- With detections present and objects tracked, `update` runs the main
branch. -/
theorem update_eq_updateMain (t : CentroidTracker) (rects : List Rect)
    (hr : rects ≠ []) (ho : t.objects ≠ []) :
    t.update rects = t.updateMain rects := by
  have h1 : rects.isEmpty = false := List.isEmpty_eq_false.mpr hr
  have h2 : t.objects.isEmpty = false := List.isEmpty_eq_false.mpr ho
  rw [CentroidTracker.update, h1, h2]
  simp

/-- C4: for every `update` call with non-empty detections and a
non-empty tracked set, every existing-object row left unassigned by the
greedy pass has its `disappeared_count` incremented by 1 — staying (with
its old box) when the count does not exceed `max_disappeared`, being
deregistered (id absent) when it does — and every unassigned detection
column is registered as a new object with a fresh id (at or above the
old id counter) and `disappeared_count` 0. -/
theorem update_unmatched_rows_and_cols (t : CentroidTracker) (rects : List Rect)
    (hr : rects ≠ []) (ho : t.objects ≠ []) (hwf : WF t) :
    (∀ i, (hi : i < t.objects.length) →
      (∀ rc ∈ tickAssignments t rects, rc.1 ≠ i) →
      ((t.objects[i]).2.disappeared + 1 ≤ t.max_disappeared →
        ((t.objects[i]).1,
            (⟨(t.objects[i]).2.box, (t.objects[i]).2.disappeared + 1⟩ : TrackedObject))
          ∈ (t.update rects).objects) ∧
      (t.max_disappeared < (t.objects[i]).2.disappeared + 1 →
        (t.objects[i]).1 ∉ (t.update rects).objects.map Prod.fst)) ∧
    (∀ c, c < rects.length → (∀ rc ∈ tickAssignments t rects, rc.2 ≠ c) →
      ∃ j, t.next_object_id ≤ j ∧
        (j, (⟨rects.getD c ⟨0, 0, 0, 0⟩, 0⟩ : TrackedObject)) ∈ (t.update rects).objects) := by
  rw [update_eq_updateMain t rects hr ho, updateMain_as_registerAll]
  constructor
  · intro i hi hun
    have hfind : (tickAssignments t rects).find? (fun rc => rc.1 == i) = none :=
      find?_asg_none _ i hun
    constructor
    · intro hle
      refine (registerAll_mem _ _ _).mpr (Or.inl ?_)
      show _ ∈ keptEntries t rects
      rw [keptEntries]
      refine List.mem_filterMap.mpr ⟨(i, t.objects[i]), mem_enum_self _ i hi, ?_⟩
      rw [keepFn, hfind]
      simp only
      rw [if_neg (by omega)]
    · intro hgt hmem
      have hid : (t.objects[i]).1 ∈ t.objects.map Prod.fst :=
        List.mem_map_of_mem Prod.fst (List.getElem_mem hi)
      rcases List.mem_map.mp hmem with ⟨q, hq, hq1⟩
      rcases (registerAll_mem _ _ q).mp hq with hkept | ⟨j, hj, hjq⟩
      · rcases List.mem_filterMap.mp hkept with ⟨ie, hie, hfie⟩
        have hf1 : q.1 = ie.2.1 := keepFn_fst _ _ _ _ _ hfie
        obtain ⟨ie1, ie2⟩ := ie
        obtain ⟨hlt, hval⟩ := List.mem_enum hie
        have hent : ie2 = t.objects[i] := by
          refine keyUnique hwf.1 (by rw [hval]; exact List.getElem_mem hlt)
            (List.getElem_mem hi) ?_
          rw [← hf1, hq1]
        have hpos : ie1 = i := by
          have hlt' : ie1 < (t.objects.map Prod.fst).length := by simpa using hlt
          have hi' : i < (t.objects.map Prod.fst).length := by simpa using hi
          have hcc : (t.objects.map Prod.fst)[ie1] = (t.objects.map Prod.fst)[i] := by
            rw [List.getElem_map, List.getElem_map, ← hval, hent]
          exact (List.Nodup.getElem_inj_iff hwf.1).mp hcc
        have hnone : keepFn t rects (tickAssignments t rects) (ie1, ie2) = none := by
          rw [keepFn]
          simp only [hpos, hfind]
          rw [if_pos (by rw [hent]; omega)]
        rw [hnone] at hfie
        exact Option.noConfusion hfie
      · have hb : ({ t with objects := keptEntries t rects } :
            CentroidTracker).next_object_id = t.next_object_id := rfl
        have hq1' : q.1 = t.next_object_id + j := by rw [hjq, ← hb]
        have hlt2 := hwf.2 _ hid
        omega
  · intro c hc hcun
    have hcmem : c ∈ unassignedColsOf t rects := by
      rw [unassignedColsOf, List.mem_filter]
      refine ⟨List.mem_range.mpr hc, ?_⟩
      rw [Bool.not_eq_true']
      exact List.any_eq_false.mpr fun rc hrc => by simpa using hcun rc hrc
    obtain ⟨k, hk, hkc⟩ := List.getElem_of_mem hcmem
    refine ⟨t.next_object_id + k, Nat.le_add_right _ _, ?_⟩
    refine (registerAll_mem _ _ _).mpr (Or.inr ⟨k, by simpa using hk, ?_⟩)
    have hb : ({ t with objects := keptEntries t rects } :
        CentroidTracker).next_object_id = t.next_object_id := rfl
    have hmlen : k < ((unassignedColsOf t rects).map
        fun c' => rects.getD c' ⟨0, 0, 0, 0⟩).length := by simpa using hk
    have hget : ((unassignedColsOf t rects).map
          fun c' => rects.getD c' ⟨0, 0, 0, 0⟩).getD k ⟨0, 0, 0, 0⟩
        = rects.getD c ⟨0, 0, 0, 0⟩ := by
      rw [List.getD_eq_getElem _ _ hmlen, List.getElem_map, hkc]
    refine Prod.ext ?_ ?_
    · rw [hb]
    · rw [hget]

/-- Witness for C4 at the spec's scenario: one tracked object at
centroid `(1, 1)`, one detection at centroid `(201, 1)` — distance 200
exceeds `max_distance = 80` — so the object ages to `disappeared = 1`
and the detection is registered under a fresh id. -/
theorem update_unmatched_rows_and_cols_witness :
    (([(⟨200, 0, 2, 2⟩ : Rect)] ≠ []) ∧
      (CentroidTracker.init.register ⟨0, 0, 2, 2⟩).objects ≠ [] ∧
      WF (CentroidTracker.init.register ⟨0, 0, 2, 2⟩)) ∧
    (((0 : Nat), (⟨⟨0, 0, 2, 2⟩, 1⟩ : TrackedObject)) ∈
        ((CentroidTracker.init.register ⟨0, 0, 2, 2⟩).update [⟨200, 0, 2, 2⟩]).objects ∧
      ∃ j, (CentroidTracker.init.register ⟨0, 0, 2, 2⟩).next_object_id ≤ j ∧
        (j, (⟨⟨200, 0, 2, 2⟩, 0⟩ : TrackedObject)) ∈
          ((CentroidTracker.init.register ⟨0, 0, 2, 2⟩).update [⟨200, 0, 2, 2⟩]).objects) :=
  ⟨⟨by decide, by decide, by decide⟩,
    ((update_unmatched_rows_and_cols (CentroidTracker.init.register ⟨0, 0, 2, 2⟩)
          [⟨200, 0, 2, 2⟩] (by decide) (by decide) (by decide)).1
        0 (by decide) (by decide)).1 (by decide),
    (update_unmatched_rows_and_cols (CentroidTracker.init.register ⟨0, 0, 2, 2⟩)
          [⟨200, 0, 2, 2⟩] (by decide) (by decide) (by decide)).2
        0 (by decide) (by decide)⟩

theorem objCentroids_length (t : CentroidTracker) :
    (objCentroids t).length = t.objects.length := by
  simp [objCentroids, compute_centroids]

theorem compute_centroids_length (rects : List Rect) :
    (compute_centroids rects).length = rects.length := by
  simp [compute_centroids]

/-- C1: for every `update` call with non-empty detections and a
non-empty tracked set, the greedy pass (i) processes each
existing-object row exactly once, (ii) in ascending order of the row's
minimum distance with ties resolved by insertion order of existing
objects (the first-registered, i.e. smaller, row index comes first),
(iii) every accepted pair assigns a row to its arg-min column (a column
minimising the row's distance) at a distance within `max_distance`
(compared as squares), (iv) no row and no column is assigned twice, and
(v) a row ends up unassigned only because its minimum distance exceeds
`max_distance` or its arg-min column was claimed by another row. -/
theorem greedy_assignment_policy (t : CentroidTracker) (rects : List Rect)
    (hr : rects ≠ []) (ho : t.objects ≠ []) :
    (rowOrder (objCentroids t) (compute_centroids rects)).Perm
        (List.range t.objects.length) ∧
      (rowOrder (objCentroids t) (compute_centroids rects)).Pairwise
        (fun i j =>
          rowMin (objCentroids t) (compute_centroids rects) i <
              rowMin (objCentroids t) (compute_centroids rects) j ∨
            (rowMin (objCentroids t) (compute_centroids rects) i =
                rowMin (objCentroids t) (compute_centroids rects) j ∧ i < j)) ∧
      (∀ rc ∈ tickAssignments t rects,
        rc.1 < t.objects.length ∧
          rc.2 = argminRow (objCentroids t) (compute_centroids rects) rc.1 ∧
          rc.2 < rects.length ∧
          dmat (objCentroids t) (compute_centroids rects) rc.1 rc.2 ≤ t.max_dist_sq ∧
          ∀ c, c < rects.length →
            dmat (objCentroids t) (compute_centroids rects) rc.1 rc.2 ≤
              dmat (objCentroids t) (compute_centroids rects) rc.1 c) ∧
      (tickAssignments t rects).Pairwise (fun x y => x.1 ≠ y.1 ∧ x.2 ≠ y.2) ∧
      (∀ r, r < t.objects.length →
        (∀ rc ∈ tickAssignments t rects, rc.1 ≠ r) →
        t.max_dist_sq < rowMin (objCentroids t) (compute_centroids rects) r ∨
          ∃ rc ∈ tickAssignments t rects,
            rc.2 = argminRow (objCentroids t) (compute_centroids rects) r) := by
  set oc := objCentroids t with hoc
  set ic := compute_centroids rects with hic
  have hocl : oc.length = t.objects.length := objCentroids_length t
  have hicl : ic.length = rects.length := compute_centroids_length rects
  have hicpos : 0 < ic.length := by
    rw [hicl]
    exact List.length_pos.mpr hr
  refine ⟨hocl ▸ rowOrder_perm oc ic, ?_, ?_, ?_, ?_⟩
  · have h1 := rowOrder_pairwise oc ic
    have h2 : (rowOrder oc ic).Pairwise (· ≠ ·) := rowOrder_nodup oc ic
    refine (h1.and h2).imp ?_
    rintro i j ⟨hle | ⟨heq, hle⟩, hne⟩
    · exact Or.inl hle
    · exact Or.inr ⟨heq, lt_of_le_of_ne hle hne⟩
  · intro rc hrc
    rcases greedy_mem t.max_dist_sq oc ic _ _ rc hrc with hmem | ⟨hcand, hdist⟩
    · cases hmem
    · rcases List.mem_map.mp hcand with ⟨r, hrord, hrc'⟩
      have h1 : rc.1 = r := by rw [← hrc']
      have h2 : rc.2 = argminRow oc ic r := by rw [← hrc']
      refine ⟨?_, ?_, ?_, hdist, ?_⟩
      · rw [h1, ← hocl]
        exact (rowOrder_mem oc ic r).mp hrord
      · rw [h2, h1]
      · rw [h2, ← hicl]
        exact argminRow_lt oc ic r hicpos
      · intro c hc
        rw [h1, h2]
        exact rowMin_le oc ic r c (by rw [hicl]; exact hc)
  · exact greedy_pairwise t.max_dist_sq oc ic _ [] List.Pairwise.nil
  · intro r hr' hun
    have hrmem : r ∈ rowOrder oc ic := (rowOrder_mem oc ic r).mpr (by rw [hocl]; exact hr')
    obtain ⟨l1, l2, hsplit⟩ := List.append_of_mem hrmem
    have hcand : candidatePairs oc ic
        = (l1.map fun r' => (r', argminRow oc ic r')) ++
          (r, argminRow oc ic r) :: (l2.map fun r' => (r', argminRow oc ic r')) := by
      rw [candidatePairs, hsplit, List.map_append, List.map_cons]
    have hfold : tickAssignments t rects
        = ((r, argminRow oc ic r) :: (l2.map fun r' => (r', argminRow oc ic r'))).foldl
            (greedyStep t.max_dist_sq oc ic)
            ((l1.map fun r' => (r', argminRow oc ic r')).foldl
              (greedyStep t.max_dist_sq oc ic) []) := by
      rw [tickAssignments, assignments, ← hic, ← hoc, hcand, List.foldl_append]
    set acc1 := (l1.map fun r' => (r', argminRow oc ic r')).foldl
      (greedyStep t.max_dist_sq oc ic) [] with hacc1
    by_cases hskip : (acc1.any (fun p => p.1 == r) ||
        acc1.any (fun p => p.2 == argminRow oc ic r)) = true
    · rw [Bool.or_eq_true] at hskip
      rcases hskip with htaken | htaken
      · rcases List.any_eq_true.mp htaken with ⟨p, hp, hpe⟩
        have hpfin : p ∈ tickAssignments t rects := by
          rw [hfold]
          exact greedy_mono _ _ _ _ _ p hp
        exact absurd (beq_iff_eq.mp hpe) (hun p hpfin)
      · rcases List.any_eq_true.mp htaken with ⟨p, hp, hpe⟩
        refine Or.inr ⟨p, ?_, beq_iff_eq.mp hpe⟩
        rw [hfold]
        exact greedy_mono _ _ _ _ _ p hp
    · by_cases hdist : t.max_dist_sq < dmat oc ic r (argminRow oc ic r)
      · exact Or.inl hdist
      · have hstep : greedyStep t.max_dist_sq oc ic acc1 (r, argminRow oc ic r)
            = acc1 ++ [(r, argminRow oc ic r)] := by
          rw [greedyStep, if_neg ?_, if_neg hdist]
          simpa using hskip
        have hfin : (r, argminRow oc ic r) ∈ tickAssignments t rects := by
          rw [hfold, List.foldl_cons, hstep]
          exact greedy_mono _ _ _ _ _ _ (List.mem_append_right _ (List.mem_singleton.mpr rfl))
        exact absurd rfl (hun _ hfin)

/-- A two-object tracker whose objects' centroids `(1, 1)` and `(21, 1)`
are equidistant from the single detection's centroid `(11, 1)` — a
distance tie between the rows. -/
def tieTracker : CentroidTracker :=
  (CentroidTracker.init.register ⟨0, 0, 2, 2⟩).register ⟨20, 0, 2, 2⟩

/-- The detection list producing the tie for `tieTracker`. -/
def tieRects : List Rect :=
  [⟨10, 0, 2, 2⟩]

/-- Witness for C1 at a tied instance (both rows at squared distance 100
from the only column). -/
theorem greedy_assignment_policy_witness :
    (tieRects ≠ [] ∧ tieTracker.objects ≠ []) ∧
      ((rowOrder (objCentroids tieTracker) (compute_centroids tieRects)).Perm
          (List.range tieTracker.objects.length) ∧
        (rowOrder (objCentroids tieTracker) (compute_centroids tieRects)).Pairwise
          (fun i j =>
            rowMin (objCentroids tieTracker) (compute_centroids tieRects) i <
                rowMin (objCentroids tieTracker) (compute_centroids tieRects) j ∨
              (rowMin (objCentroids tieTracker) (compute_centroids tieRects) i =
                  rowMin (objCentroids tieTracker) (compute_centroids tieRects) j ∧
                i < j)) ∧
        (∀ rc ∈ tickAssignments tieTracker tieRects,
          rc.1 < tieTracker.objects.length ∧
            rc.2 = argminRow (objCentroids tieTracker) (compute_centroids tieRects) rc.1 ∧
            rc.2 < tieRects.length ∧
            dmat (objCentroids tieTracker) (compute_centroids tieRects) rc.1 rc.2 ≤
              tieTracker.max_dist_sq ∧
            ∀ c, c < tieRects.length →
              dmat (objCentroids tieTracker) (compute_centroids tieRects) rc.1 rc.2 ≤
                dmat (objCentroids tieTracker) (compute_centroids tieRects) rc.1 c) ∧
        (tickAssignments tieTracker tieRects).Pairwise
          (fun x y => x.1 ≠ y.1 ∧ x.2 ≠ y.2) ∧
        (∀ r, r < tieTracker.objects.length →
          (∀ rc ∈ tickAssignments tieTracker tieRects, rc.1 ≠ r) →
          tieTracker.max_dist_sq <
              rowMin (objCentroids tieTracker) (compute_centroids tieRects) r ∨
            ∃ rc ∈ tickAssignments tieTracker tieRects,
              rc.2 = argminRow (objCentroids tieTracker) (compute_centroids tieRects) r)) :=
  ⟨⟨by decide, by decide⟩,
    greedy_assignment_policy tieTracker tieRects (by decide) (by decide)⟩

/-- Basic facts about every accepted assignment: the row and column are
in range, the column is the row's arg-min, and the (squared) distance is
within `max_distance` (squared). -/
theorem asg_facts (t : CentroidTracker) (rects : List Rect) (hr : rects ≠ []) :
    ∀ rc ∈ tickAssignments t rects,
      rc.1 < t.objects.length ∧
        rc.2 < rects.length ∧
        rc.2 = argminRow (objCentroids t) (compute_centroids rects) rc.1 ∧
        dmat (objCentroids t) (compute_centroids rects) rc.1 rc.2 ≤ t.max_dist_sq := by
  intro rc hrc
  set oc := objCentroids t
  set ic := compute_centroids rects
  have hicpos : 0 < ic.length := by
    rw [compute_centroids_length]
    exact List.length_pos.mpr hr
  rcases greedy_mem t.max_dist_sq oc ic _ _ rc hrc with hmem | ⟨hcand, hdist⟩
  · cases hmem
  · rcases List.mem_map.mp hcand with ⟨r, hrord, hrc'⟩
    have h1 : rc.1 = r := by rw [← hrc']
    have h2 : rc.2 = argminRow oc ic r := by rw [← hrc']
    refine ⟨?_, ?_, ?_, hdist⟩
    · rw [h1, ← objCentroids_length t]
      exact (rowOrder_mem oc ic r).mp hrord
    · rw [h2, ← compute_centroids_length rects]
      exact argminRow_lt oc ic r hicpos
    · rw [h2, h1]

/-- When every detection is within `max_distance` of exactly the tracked
centroid `φ c` and `φ` is injective, the greedy pass accepts exactly the
pair `(φ c, c)` for each detection `c`. -/
theorem asg_mem_of_unique (t : CentroidTracker) (rects : List Rect)
    (hr : rects ≠ []) (φ : Nat → Nat)
    (hφlt : ∀ c, c < rects.length → φ c < t.objects.length)
    (hφin : ∀ c, c < rects.length →
      dmat (objCentroids t) (compute_centroids rects) (φ c) c ≤ t.max_dist_sq)
    (hφuniq : ∀ c, c < rects.length → ∀ r, r < t.objects.length → r ≠ φ c →
      t.max_dist_sq < dmat (objCentroids t) (compute_centroids rects) r c)
    (hφinj : ∀ c c', c < rects.length → c' < rects.length → φ c = φ c' → c = c') :
    ∀ c, c < rects.length → (φ c, c) ∈ tickAssignments t rects := by
  intro c hc
  set oc := objCentroids t with hoc
  set ic := compute_centroids rects with hic
  have hocl : oc.length = t.objects.length := objCentroids_length t
  have hicl : ic.length = rects.length := compute_centroids_length rects
  have hicpos : 0 < ic.length := by
    rw [hicl]
    exact List.length_pos.mpr hr
  have hrlt : φ c < t.objects.length := hφlt c hc
  -- the arg-min column of row `φ c` is `c` itself
  have hargm : argminRow oc ic (φ c) = c := by
    have hstar_lt : argminRow oc ic (φ c) < rects.length := by
      rw [← hicl]
      exact argminRow_lt oc ic (φ c) hicpos
    have hstar_le : dmat oc ic (φ c) (argminRow oc ic (φ c)) ≤ t.max_dist_sq :=
      le_trans (rowMin_le oc ic (φ c) c (by rw [hicl]; exact hc)) (hφin c hc)
    have hfix : φ c = φ (argminRow oc ic (φ c)) := by
      by_contra hne
      exact absurd hstar_le
        (not_le.mpr (hφuniq (argminRow oc ic (φ c)) hstar_lt (φ c) hrlt hne))
    exact hφinj (argminRow oc ic (φ c)) c hstar_lt hc hfix.symm
  -- split the processing order at row `φ c`
  have hrmem : φ c ∈ rowOrder oc ic := (rowOrder_mem oc ic (φ c)).mpr (by omega)
  obtain ⟨l1, l2, hsplit⟩ := List.append_of_mem hrmem
  have hnotl1 : φ c ∉ l1 := by
    have hnd := rowOrder_nodup oc ic
    rw [hsplit, List.nodup_append] at hnd
    intro hmem
    exact hnd.2.2 hmem (List.mem_cons_self _ _)
  have hl1sub : ∀ r' ∈ l1, r' ∈ rowOrder oc ic := by
    intro r' h'
    rw [hsplit]
    exact List.mem_append_left _ h'
  have hcand : candidatePairs oc ic
      = (l1.map fun r' => (r', argminRow oc ic r')) ++
        (φ c, argminRow oc ic (φ c)) :: (l2.map fun r' => (r', argminRow oc ic r')) := by
    rw [candidatePairs, hsplit, List.map_append, List.map_cons]
  have hfold : tickAssignments t rects
      = ((φ c, argminRow oc ic (φ c)) ::
            (l2.map fun r' => (r', argminRow oc ic r'))).foldl
          (greedyStep t.max_dist_sq oc ic)
          ((l1.map fun r' => (r', argminRow oc ic r')).foldl
            (greedyStep t.max_dist_sq oc ic) []) := by
    rw [tickAssignments, assignments, ← hic, ← hoc, hcand, List.foldl_append]
  set acc1 := (l1.map fun r' => (r', argminRow oc ic r')).foldl
    (greedyStep t.max_dist_sq oc ic) [] with hacc1
  -- members of the prefix fold come from rows of `l1`
  have hacc1mem : ∀ p ∈ acc1, ∃ r' ∈ l1,
      p = (r', argminRow oc ic r') ∧ dmat oc ic p.1 p.2 ≤ t.max_dist_sq := by
    intro p hp
    rcases greedy_mem t.max_dist_sq oc ic _ _ p hp with hmem | ⟨hcand', hdist'⟩
    · cases hmem
    · rcases List.mem_map.mp hcand' with ⟨r', hr', hpr'⟩
      exact ⟨r', hr', hpr'.symm, hdist'⟩
  -- the pair `(φ c, c)` is not skipped at its turn
  have hrowfree : acc1.any (fun p => p.1 == φ c) = false := by
    rw [List.any_eq_false]
    intro p hp hpe
    rcases hacc1mem p hp with ⟨r', hr', hpr', _⟩
    refine hnotl1 ?_
    have : p.1 = φ c := by simpa using hpe
    rw [← this, hpr']
    exact hr'
  have hcolfree : acc1.any (fun p => p.2 == argminRow oc ic (φ c)) = false := by
    rw [List.any_eq_false]
    intro p hp hpe
    rcases hacc1mem p hp with ⟨r', hr', hpr', hpd⟩
    have hp2 : p.2 = c := by
      have : p.2 = argminRow oc ic (φ c) := by simpa using hpe
      rw [this, hargm]
    have hr'lt : r' < t.objects.length := by
      rw [← hocl]
      exact (rowOrder_mem oc ic r').mp (hl1sub r' hr')
    have hp1 : p.1 = r' := by rw [hpr']
    have hr'fix : r' = φ c := by
      by_contra hne
      have := hφuniq c hc r' hr'lt hne
      rw [← hp1, ← hp2] at this
      omega
    refine hnotl1 ?_
    rw [← hr'fix]
    exact hr'
  have hstep : greedyStep t.max_dist_sq oc ic acc1 (φ c, argminRow oc ic (φ c))
      = acc1 ++ [(φ c, argminRow oc ic (φ c))] := by
    rw [greedyStep, if_neg ?_, if_neg ?_]
    · rw [hargm]
      exact not_lt.mpr (hφin c hc)
    · rw [hrowfree, hcolfree]
      simp
  have hfin : (φ c, argminRow oc ic (φ c)) ∈ tickAssignments t rects := by
    rw [hfold, List.foldl_cons, hstep]
    exact greedy_mono _ _ _ _ _ _ (List.mem_append_right _ (List.mem_singleton.mpr rfl))
  rw [hargm] at hfin
  exact hfin

/-- A `filterMap` that always succeeds and whose hits have first
component `g` projects to `map g`. -/
theorem filterMap_map_fst_eq {α β γ : Type} {l : List α} {f : α → Option (γ × β)}
    {g : α → γ} (hf : ∀ a ∈ l, ∃ b, f a = some (g a, b)) :
    (l.filterMap f).map Prod.fst = l.map g := by
  induction l with
  | nil => rfl
  | cons a l ih =>
    obtain ⟨b, hb⟩ := hf a (List.mem_cons_self a l)
    rw [List.filterMap_cons, hb, List.map_cons, List.map_cons,
      ih fun x hx => hf x (List.mem_cons_of_mem a hx)]

/-- C2 (amended): for every `update` call in which each detection lies
within `max_distance` of exactly one previously-tracked centroid (its
`φ`-image), no two detections share that closest centroid, and — the
amendment — every existing object's `disappeared_count` is strictly
below `max_disappeared`, the id list returned by `update` is identical
to the one before the call (so in particular the id set is), each
matched object's box becomes the matched detection's box with
`disappeared_count` reset to 0, and no new id is created (the id counter
is unchanged). -/
theorem update_small_motion_preserves_ids (t : CentroidTracker) (rects : List Rect)
    (hr : rects ≠ []) (ho : t.objects ≠ []) (hwf : WF t) (φ : Nat → Nat)
    (hφlt : ∀ c, c < rects.length → φ c < t.objects.length)
    (hφin : ∀ c, c < rects.length →
      dmat (objCentroids t) (compute_centroids rects) (φ c) c ≤ t.max_dist_sq)
    (hφuniq : ∀ c, c < rects.length → ∀ r, r < t.objects.length → r ≠ φ c →
      t.max_dist_sq < dmat (objCentroids t) (compute_centroids rects) r c)
    (hφinj : ∀ c, c < rects.length → ∀ c', c' < rects.length → φ c = φ c' → c = c')
    (hexp : ∀ p ∈ t.objects, p.2.disappeared < t.max_disappeared) :
    (t.update rects).objects.map Prod.fst = t.objects.map Prod.fst ∧
      (t.update rects).next_object_id = t.next_object_id ∧
      ∀ c, c < rects.length →
        ((t.objects.getD (φ c) (0, ⟨⟨0, 0, 0, 0⟩, 0⟩)).1,
            (⟨rects.getD c ⟨0, 0, 0, 0⟩, 0⟩ : TrackedObject)) ∈ (t.update rects).objects := by
  have hasg := asg_mem_of_unique t rects hr φ hφlt hφin hφuniq
    (fun c c' hc hc' => hφinj c hc c' hc')
  have hcols : unassignedColsOf t rects = [] := by
    rw [unassignedColsOf, List.filter_eq_nil_iff]
    intro c hcr
    rw [List.mem_range] at hcr
    have hany : (tickAssignments t rects).any (fun rc => rc.2 == c) = true :=
      List.any_eq_true.mpr ⟨(φ c, c), hasg c hcr, by simp⟩
    simp [hany]
  have hupd : t.update rects = { t with objects := keptEntries t rects } := by
    rw [update_eq_updateMain t rects hr ho, CentroidTracker.updateMain, hcols]
    rfl
  refine ⟨?_, ?_, ?_⟩
  · rw [hupd]
    show (keptEntries t rects).map Prod.fst = t.objects.map Prod.fst
    rw [keptEntries]
    have hg : ∀ ie ∈ t.objects.enum, ∃ b,
        keepFn t rects (tickAssignments t rects) ie
          = some ((fun ie' => ie'.2.1) ie, b) := by
      rintro ⟨i, e⟩ hie
      rw [keepFn]
      cases hfind : (tickAssignments t rects).find? (fun rc => rc.1 == (i, e).1) with
      | some rc =>
        simp only [hfind]
        exact ⟨_, rfl⟩
      | none =>
        simp only [hfind]
        obtain ⟨hilt, hival⟩ := List.mem_enum hie
        have hmem2 : e ∈ t.objects := by
          rw [hival]
          exact List.getElem_mem hilt
        have hlt := hexp e hmem2
        rw [if_neg (by omega)]
        exact ⟨_, rfl⟩
    rw [filterMap_map_fst_eq hg]
    conv_rhs => rw [← List.enum_map_snd t.objects]
    rw [List.map_map]
    rfl
  · rw [hupd]
  · intro c hc
    have hφc := hasg c hc
    have hilt : φ c < t.objects.length := hφlt c hc
    have hfind_some :
        ((tickAssignments t rects).find? (fun rc => rc.1 == φ c)).isSome = true :=
      List.find?_isSome.mpr ⟨(φ c, c), hφc, by simp⟩
    obtain ⟨rc, hfind⟩ := Option.isSome_iff_exists.mp hfind_some
    have hrcmem := List.mem_of_find?_eq_some hfind
    have hrc1 : rc.1 = φ c := by simpa using List.find?_some hfind
    obtain ⟨h1, h2, h3, h4⟩ := asg_facts t rects hr rc hrcmem
    have hrc2 : rc.2 = c := by
      have hfix : rc.1 = φ rc.2 := by
        by_contra hne
        have := hφuniq rc.2 h2 rc.1 h1 hne
        omega
      refine hφinj rc.2 h2 c hc ?_
      rw [← hfix, hrc1]
    have hentry : keepFn t rects (tickAssignments t rects) (φ c, t.objects[φ c])
        = some ((t.objects[φ c]).1,
            (⟨rects.getD c ⟨0, 0, 0, 0⟩, 0⟩ : TrackedObject)) := by
      rw [keepFn]
      simp only [hfind]
      rw [hrc2, List.getD_eq_getElem rects (t.objects[φ c]).2.box hc,
        List.getD_eq_getElem rects ⟨0, 0, 0, 0⟩ hc]
    rw [hupd]
    show _ ∈ keptEntries t rects
    rw [keptEntries]
    refine List.mem_filterMap.mpr ⟨(φ c, t.objects[φ c]), mem_enum_self _ _ hilt, ?_⟩
    rw [List.getD_eq_getElem _ _ hilt]
    exact hentry

/-- A tracker built with `max_disappeared = 0` holding ids 0 and 1; its
object 0 sits at centroid `(1, 1)`, far from everything else. -/
def expiryTracker : CentroidTracker :=
  (({ next_object_id := 0, objects := [], max_disappeared := 0, max_dist_sq := 6400 } :
      CentroidTracker).register ⟨0, 0, 2, 2⟩).register ⟨1000, 1000, 2, 2⟩

/-- C2 counterexample: the single detection (centroid `(1001, 1001)`)
lies within `max_distance` of exactly one tracked centroid (object 1 at
distance 0; object 0 is far beyond 80), and with one detection no two
detections share a closest centroid — the claim's hypotheses hold — yet
the returned id list `[1]` differs from `[0, 1]`: unmatched object 0,
whose `disappeared_count` was already at `max_disappeared`, expires
during the tick.  The claim is false without an assumption that no
unmatched object is about to expire. -/
theorem update_small_motion_counterexample :
    (dmat (objCentroids expiryTracker) (compute_centroids [⟨1000, 1000, 2, 2⟩]) 1 0 ≤
        expiryTracker.max_dist_sq ∧
      expiryTracker.max_dist_sq <
        dmat (objCentroids expiryTracker) (compute_centroids [⟨1000, 1000, 2, 2⟩]) 0 0) ∧
      (expiryTracker.update [⟨1000, 1000, 2, 2⟩]).objects.map Prod.fst ≠
        expiryTracker.objects.map Prod.fst := by
  decide

/-- Witness for C2 (amended) at the spec's scenario: object 0 at box
`(100, 100, 50, 50)` (centroid `(125, 125)`), detection
`(105, 103, 50, 50)` (centroid `(130, 128)`, squared distance
`34 ≤ 6400`). -/
theorem update_small_motion_preserves_ids_witness :
    (([(⟨105, 103, 50, 50⟩ : Rect)] ≠ []) ∧
      (CentroidTracker.init.register ⟨100, 100, 50, 50⟩).objects ≠ [] ∧
      WF (CentroidTracker.init.register ⟨100, 100, 50, 50⟩) ∧
      (∀ c, c < ([(⟨105, 103, 50, 50⟩ : Rect)] : List Rect).length →
        dmat (objCentroids (CentroidTracker.init.register ⟨100, 100, 50, 50⟩))
            (compute_centroids [⟨105, 103, 50, 50⟩]) 0 c ≤
          (CentroidTracker.init.register ⟨100, 100, 50, 50⟩).max_dist_sq) ∧
      (∀ p ∈ (CentroidTracker.init.register ⟨100, 100, 50, 50⟩).objects,
        p.2.disappeared <
          (CentroidTracker.init.register ⟨100, 100, 50, 50⟩).max_disappeared)) ∧
    (((CentroidTracker.init.register ⟨100, 100, 50, 50⟩).update
          [⟨105, 103, 50, 50⟩]).objects.map Prod.fst =
        (CentroidTracker.init.register ⟨100, 100, 50, 50⟩).objects.map Prod.fst ∧
      ((CentroidTracker.init.register ⟨100, 100, 50, 50⟩).update
          [⟨105, 103, 50, 50⟩]).next_object_id =
        (CentroidTracker.init.register ⟨100, 100, 50, 50⟩).next_object_id ∧
      ∀ c, c < ([(⟨105, 103, 50, 50⟩ : Rect)] : List Rect).length →
        (((CentroidTracker.init.register ⟨100, 100, 50, 50⟩).objects.getD 0
              (0, ⟨⟨0, 0, 0, 0⟩, 0⟩)).1,
            (⟨([(⟨105, 103, 50, 50⟩ : Rect)] : List Rect).getD c ⟨0, 0, 0, 0⟩, 0⟩ :
              TrackedObject)) ∈
          ((CentroidTracker.init.register ⟨100, 100, 50, 50⟩).update
            [⟨105, 103, 50, 50⟩]).objects) :=
  ⟨⟨by decide, by decide, by decide, by decide, by decide⟩,
    update_small_motion_preserves_ids (CentroidTracker.init.register ⟨100, 100, 50, 50⟩)
      [⟨105, 103, 50, 50⟩] (by decide) (by decide) (by decide) (fun _ => 0)
      (by decide) (by decide) (by decide) (by decide) (by decide)⟩

/-! ## Frame pipeline (`backend/vision.py`)

The pipeline's external collaborators are abstracted by data:

* a raw frame matters only through its pixel dimensions (cropping and
  ROI emptiness) — `Frame` records height and width;
* `cap.read()` either yields a frame or fails (`ret` false / `None`) —
  one tick's read outcome is an `Option Frame`;
* the MediaPipe detector plus `_bbox_from_detection` produce a list of
  boxes from the frame — one tick's detector output is a `List Rect`;
* the FER classifier inside `EmotionRecognizer` is an optional function
  from a cropped region (identified by the frame and the clamped box) to
  `detect_emotions`' outcome: `none` for a raised exception, otherwise
  the list of per-face results, each carrying its `emotions` dict as an
  association list in dict iteration order.  Confidences are rationals
  (the claims only ever compare them with `0.0` and with each other).

JPEG encoding and the log timestamp are outside every claim and are
dropped: `process_frame` returns the per-object results and the log
entries appended this tick. -/

/-- A raw frame, abstracted to its pixel dimensions. -/
structure Frame where
  height : Nat
  width : Nat
deriving DecidableEq, Repr

/-- `EmotionRecognizer`: `self.detector` is `None` when FER is absent or
its constructor failed; otherwise it maps a cropped region to
`detect_emotions`' outcome (`none` = the call raised). -/
structure EmotionRecognizer where
  detector : Option (Frame → Rect → Option (List (List (String × ℚ))))

/-- `max(emotions, key=emotions.get)` together with the looked-up score:
the first key attaining the maximal score, `none` for an empty dict
(where Python's `max` raises, caught by `predict`'s `except`). -/
def argmaxEmotion (ems : List (String × ℚ)) : Option (String × ℚ) :=
  ems.foldl
    (fun acc e =>
      match acc with
      | none => some e
      | some b => if b.2 < e.2 then some e else some b)
    none

/-- `EmotionRecognizer.predict`: sentinel `("neutral", 0.0)` when the
detector is absent, when `detect_emotions` raises, when it returns no
face result, or when the winning dict is empty; otherwise the arg-max
emotion and its score. -/
def EmotionRecognizer.predict (rec : EmotionRecognizer) (frame : Frame) (roi : Rect) :
    String × ℚ :=
  match rec.detector with
  | none => ("neutral", 0)
  | some detect =>
    match detect frame roi with
    | none => ("neutral", 0)
    | some [] => ("neutral", 0)
    | some (ems :: _) =>
      match argmaxEmotion ems with
      | none => ("neutral", 0)
      | some ec => ec

/-- One per-object entry of the result list built by `process_frame`. -/
structure PerObjectResult where
  person_id : Nat
  bbox : Rect
  emotion : String
  confidence : ℚ
deriving DecidableEq, Repr

/-- One line appended to `logs/emotions.jsonl` by `_log_emotion`
(timestamp abstracted away). -/
structure LogEntry where
  person_id : Nat
  emotion : String
  confidence : ℚ
deriving DecidableEq, Repr

/-- The two `RuntimeError`s `process_frame` can raise: the camera is not
open, or this tick's read failed. -/
inductive PipelineError where
  | sourceUnavailable
  | frameReadFailure
deriving DecidableEq, Repr

/-- State of `VisionSystem` (the fields the claims touch):
`cap.isOpened()` as a flag, the sampling period, the tracker, the
recognizer, the latest published result list, and the tick counter. -/
structure VisionSystem where
  camera_open : Bool
  emotion_every : Nat
  tracker : CentroidTracker
  emotion : EmotionRecognizer
  latest_data : List PerObjectResult
  frame_count : Nat

/-- `VisionSystem.__init__` (with `emotion_every = 5`): no result
published yet, tick counter 0, fresh tracker. -/
def VisionSystem.start (cam : Bool) (rec : EmotionRecognizer) : VisionSystem :=
  { camera_open := cam, emotion_every := 5, tracker := CentroidTracker.init,
    emotion := rec, latest_data := [], frame_count := 0 }

/-- The environment of one tick: the outcome of `cap.read()` and the
boxes the detector produced from the frame. -/
structure TickInput where
  frame : Option Frame
  boxes : List Rect

/-- The per-object clamping in `process_frame`:
`x, y = max(x, 0), max(y, 0)` and `w, h = max(w, 1), max(h, 1)`. -/
def clampBox (r : Rect) : Rect :=
  ⟨max r.x 0, max r.y 0, max r.w 1, max r.h 1⟩

/-- `face_roi.size > 0` for `face_roi = frame[y:y+h, x:x+w]` after
clamping: with `y ≥ 0` and `h ≥ 1` the row slice is non-empty iff
`y < height`, and likewise for columns, so the crop has pixels iff the
clamped origin lies inside the frame. -/
def roiNonempty (f : Frame) (r : Rect) : Bool :=
  decide (r.y < (f.height : Int) ∧ r.x < (f.width : Int))

/-- `VisionSystem.is_open`. -/
def VisionSystem.is_open (vs : VisionSystem) : Bool :=
  vs.camera_open

/-- The body of `process_frame`'s per-object loop: start from the
sentinel, and only on a sampling tick with a non-empty crop replace it
by the classifier's answer and append a log line.  The result entry
carries the clamped box. -/
def resultStep (vs : VisionSystem) (frame : Frame) (fc : Nat)
    (acc : List PerObjectResult × List LogEntry) (p : Nat × TrackedObject) :
    List PerObjectResult × List LogEntry :=
  let b := clampBox p.2.box
  if fc % vs.emotion_every == 0 && roiNonempty frame b then
    let ec := vs.emotion.predict frame b
    (acc.1 ++ [⟨p.1, b, ec.1, ec.2⟩], acc.2 ++ [⟨p.1, ec.1, ec.2⟩])
  else
    (acc.1 ++ [⟨p.1, b, "neutral", 0⟩], acc.2)

/-- `VisionSystem.process_frame`: fail if the camera is not open, fail
if the read failed; otherwise update the tracker with the detected
boxes, bump the tick counter, build one result entry (and, on sampling
ticks with a non-empty crop, one log line) per live object, and publish
the result list as `latest_data`. -/
def VisionSystem.process_frame (vs : VisionSystem) (inp : TickInput) :
    Except PipelineError (VisionSystem × List PerObjectResult × List LogEntry) :=
  if !vs.camera_open then .error .sourceUnavailable
  else
    match inp.frame with
    | none => .error .frameReadFailure
    | some frame =>
      let tr := vs.tracker.update inp.boxes
      let fc := vs.frame_count + 1
      let rl := tr.objects.foldl (resultStep vs frame fc) ([], [])
      .ok ({ vs with tracker := tr, frame_count := fc, latest_data := rl.1 }, rl.1, rl.2)

/-- `VisionSystem.get_latest_data`: if nothing (or an empty list) is
stored, attempt one warm-up tick, swallowing its `RuntimeError`; return
the stored list (updated by the tick when it succeeded).  Also returns
the resulting system state, which the Python mutates in place. -/
def VisionSystem.get_latest_data (vs : VisionSystem) (inp : TickInput) :
    List PerObjectResult × VisionSystem :=
  if vs.latest_data.isEmpty then
    match vs.process_frame inp with
    | .ok (vs', _, _) => (vs'.latest_data, vs')
    | .error _ => (vs.latest_data, vs)
  else
    (vs.latest_data, vs)

/-! ## Lemmas about the pipeline -/

/-- The result entry `process_frame` builds for one live object. -/
def resultEntryFor (vs : VisionSystem) (frame : Frame) (fc : Nat)
    (p : Nat × TrackedObject) : PerObjectResult :=
  let b := clampBox p.2.box
  if fc % vs.emotion_every == 0 && roiNonempty frame b then
    ⟨p.1, b, (vs.emotion.predict frame b).1, (vs.emotion.predict frame b).2⟩
  else
    ⟨p.1, b, "neutral", 0⟩

/-- The log line `process_frame` appends for one live object, when it
appends one. -/
def logEntryFor (vs : VisionSystem) (frame : Frame) (fc : Nat)
    (p : Nat × TrackedObject) : Option LogEntry :=
  let b := clampBox p.2.box
  if fc % vs.emotion_every == 0 && roiNonempty frame b then
    some ⟨p.1, (vs.emotion.predict frame b).1, (vs.emotion.predict frame b).2⟩
  else
    none

/-- The per-object loop of `process_frame` builds one result entry per
live object and one log line per sampled object. -/
theorem resultStep_fold (vs : VisionSystem) (frame : Frame) (fc : Nat) :
    ∀ (l : List (Nat × TrackedObject)) (acc : List PerObjectResult × List LogEntry),
      l.foldl (resultStep vs frame fc) acc
        = (acc.1 ++ l.map (resultEntryFor vs frame fc),
            acc.2 ++ l.filterMap (logEntryFor vs frame fc)) := by
  intro l
  induction l with
  | nil => intro acc; simp
  | cons p l ih =>
    intro acc
    rw [List.foldl_cons, ih]
    by_cases hcond :
        (fc % vs.emotion_every == 0 && roiNonempty frame (clampBox p.2.box)) = true
    · simp [resultStep, resultEntryFor, logEntryFor, hcond]
    · simp [resultStep, resultEntryFor, logEntryFor, hcond]

/-- Canonical form of a successful tick. -/
theorem process_frame_ok (vs : VisionSystem) (inp : TickInput) (frame : Frame)
    (hopen : vs.camera_open = true) (hf : inp.frame = some frame) :
    vs.process_frame inp = .ok
      ({ vs with
          tracker := vs.tracker.update inp.boxes,
          frame_count := vs.frame_count + 1,
          latest_data := (vs.tracker.update inp.boxes).objects.map
            (resultEntryFor vs frame (vs.frame_count + 1)) },
        (vs.tracker.update inp.boxes).objects.map
          (resultEntryFor vs frame (vs.frame_count + 1)),
        (vs.tracker.update inp.boxes).objects.filterMap
          (logEntryFor vs frame (vs.frame_count + 1))) := by
  rw [VisionSystem.process_frame, hopen, hf]
  simp only [Bool.not_true, Bool.false_eq_true, if_false]
  rw [resultStep_fold]
  simp

/-- A tick with a closed camera or a failed read raises one of the two
`RuntimeError`s. -/
theorem process_frame_err_of (vs : VisionSystem) (inp : TickInput)
    (h : vs.camera_open = false ∨ inp.frame = none) :
    ∃ e, vs.process_frame inp = .error e := by
  by_cases hcam : vs.camera_open = true
  · have hfn : inp.frame = none := by
      rcases h with h | h
      · rw [hcam] at h; cases h
      · exact h
    refine ⟨.frameReadFailure, ?_⟩
    rw [VisionSystem.process_frame, hcam, hfn]
    simp
  · refine ⟨.sourceUnavailable, ?_⟩
    have hfalse : vs.camera_open = false := by simpa using hcam
    rw [VisionSystem.process_frame, hfalse]
    simp

/-- Successful ticks happen exactly when the camera is open and a frame
was read; they bump the tick counter and publish their results. -/
theorem process_frame_ok_inv (vs : VisionSystem) (inp : TickInput)
    (out : VisionSystem × List PerObjectResult × List LogEntry)
    (h : vs.process_frame inp = .ok out) :
    vs.camera_open = true ∧ ∃ frame, inp.frame = some frame ∧
      out.1.frame_count = vs.frame_count + 1 ∧ out.1.latest_data = out.2.1 := by
  by_cases hcam : vs.camera_open = true
  · cases hf : inp.frame with
    | none =>
      obtain ⟨e, he⟩ := process_frame_err_of vs inp (Or.inr hf)
      rw [he] at h
      cases h
    | some frame =>
      rw [process_frame_ok vs inp frame hcam hf] at h
      refine ⟨hcam, frame, rfl, ?_, ?_⟩
      · rw [← Except.ok.inj h]
      · rw [← Except.ok.inj h]
  · obtain ⟨e, he⟩ := process_frame_err_of vs inp
      (Or.inl (by simpa using hcam))
    rw [he] at h
    cases h

/-- With an absent classifier, `predict` is the sentinel. -/
theorem predict_none (rec : EmotionRecognizer) (hdet : rec.detector = none)
    (frame : Frame) (roi : Rect) : rec.predict frame roi = ("neutral", 0) := by
  rw [EmotionRecognizer.predict, hdet]

/-- With an absent classifier every result entry degrades to the
sentinel. -/
theorem resultEntryFor_sentinel (vs : VisionSystem) (frame : Frame) (fc : Nat)
    (p : Nat × TrackedObject) (hdet : vs.emotion.detector = none) :
    (resultEntryFor vs frame fc p).emotion = "neutral" ∧
      (resultEntryFor vs frame fc p).confidence = 0 := by
  simp only [resultEntryFor]
  split
  · rw [predict_none vs.emotion hdet]
    exact ⟨rfl, rfl⟩
  · exact ⟨rfl, rfl⟩

/-- C8: a pipeline tick (`process_frame`) fails exactly when the frame
source is not open (`sourceUnavailable`) or the frame read fails this
tick (`frameReadFailure`); the attribute classifier's absence never
causes a tick to fail — with no classifier every object's result carries
the sentinel label with confidence 0.0. -/
theorem process_frame_failure_semantics (vs : VisionSystem) (inp : TickInput) :
    (vs.process_frame inp = .error .sourceUnavailable ↔ vs.camera_open = false) ∧
      (vs.process_frame inp = .error .frameReadFailure ↔
        (vs.camera_open = true ∧ inp.frame = none)) ∧
      ((∃ out, vs.process_frame inp = .ok out) ↔
        (vs.camera_open = true ∧ inp.frame ≠ none)) ∧
      (vs.emotion.detector = none → ∀ out, vs.process_frame inp = .ok out →
        ∀ r ∈ out.2.1, r.emotion = "neutral" ∧ r.confidence = 0) := by
  by_cases hcam : vs.camera_open = true
  · cases hf : inp.frame with
    | none =>
      have herr : vs.process_frame inp = .error .frameReadFailure := by
        rw [VisionSystem.process_frame, hcam, hf]
        simp
      rw [herr]
      refine ⟨⟨(fun h => by cases h), (fun h => by rw [hcam] at h; cases h)⟩,
        ⟨(fun _ => ⟨hcam, rfl⟩), (fun _ => rfl)⟩, ⟨?_, ?_⟩, ?_⟩
      · rintro ⟨out, hout⟩
        cases hout
      · rintro ⟨_, hne⟩
        exact absurd rfl hne
      · intro _ out hout
        cases hout
    | some frame =>
      have hok := process_frame_ok vs inp frame hcam hf
      rw [hok]
      refine ⟨⟨(fun h => by cases h), (fun h => by rw [hcam] at h; cases h)⟩,
        ⟨(fun h => by cases h), (fun h => by cases h.2)⟩,
        ⟨(fun _ => ⟨hcam, fun h => by cases h⟩), (fun _ => ⟨_, rfl⟩)⟩, ?_⟩
      intro hdet out hout
      have hbody := Except.ok.inj hout
      intro r hr
      rw [← hbody] at hr
      rcases List.mem_map.mp hr with ⟨p, _, hpr⟩
      rw [← hpr]
      exact resultEntryFor_sentinel vs frame _ p hdet
  · have hfalse : vs.camera_open = false := by simpa using hcam
    have herr : vs.process_frame inp = .error .sourceUnavailable := by
      rw [VisionSystem.process_frame, hfalse]
      simp
    rw [herr]
    refine ⟨⟨(fun _ => hfalse), (fun _ => rfl)⟩,
      ⟨(fun h => by cases h), (fun h => by rw [hfalse] at h; cases h.1)⟩,
      ⟨?_, ?_⟩, ?_⟩
    · rintro ⟨out, hout⟩
      cases hout
    · rintro ⟨h, _⟩
      rw [hfalse] at h
      cases h
    · intro _ out hout
      cases hout

/-- A recognizer whose underlying classifier is absent. -/
def recNone : EmotionRecognizer := ⟨none⟩

/-- The 100×100 frame used by the concrete pipeline scenarios. -/
def camFrame : Frame := ⟨100, 100⟩

/-- Witness for C8 at a concrete system (open camera, no classifier,
one read frame, one detection). -/
theorem process_frame_failure_semantics_witness :
    ((VisionSystem.start true recNone).process_frame ⟨some camFrame, [⟨10, 10, 20, 20⟩]⟩
          = .error .sourceUnavailable ↔
        (VisionSystem.start true recNone).camera_open = false) ∧
      ((VisionSystem.start true recNone).process_frame ⟨some camFrame, [⟨10, 10, 20, 20⟩]⟩
            = .error .frameReadFailure ↔
        ((VisionSystem.start true recNone).camera_open = true ∧
          (⟨some camFrame, [⟨10, 10, 20, 20⟩]⟩ : TickInput).frame = none)) ∧
      ((∃ out, (VisionSystem.start true recNone).process_frame
            ⟨some camFrame, [⟨10, 10, 20, 20⟩]⟩ = .ok out) ↔
        ((VisionSystem.start true recNone).camera_open = true ∧
          (⟨some camFrame, [⟨10, 10, 20, 20⟩]⟩ : TickInput).frame ≠ none)) ∧
      ((VisionSystem.start true recNone).emotion.detector = none →
        ∀ out, (VisionSystem.start true recNone).process_frame
            ⟨some camFrame, [⟨10, 10, 20, 20⟩]⟩ = .ok out →
          ∀ r ∈ out.2.1, r.emotion = "neutral" ∧ r.confidence = 0) :=
  process_frame_failure_semantics (VisionSystem.start true recNone)
    ⟨some camFrame, [⟨10, 10, 20, 20⟩]⟩

/-- A guarded `filterMap` is a `map` over the `filter`. -/
theorem filterMap_guard {α β : Type} (q : α → Bool) (g : α → β) :
    ∀ l : List α,
      l.filterMap (fun a => if q a then some (g a) else none) = (l.filter q).map g := by
  intro l
  induction l with
  | nil => rfl
  | cons a l ih =>
    by_cases hq : q a = true
    · rw [List.filterMap_cons, List.filter_cons]
      simp [hq, ih]
    · rw [List.filterMap_cons, List.filter_cons]
      simp [hq, ih]

/-- C7 (amended): with `emotion_every = 5`, on every successful tick
whose (incremented) tick counter is not a multiple of 5, each live
object's result carries the sentinel label with confidence 0.0 and no
log line is written; on every tick whose counter is a multiple of 5, the
Attribute Sampler is invoked — and exactly one log line appended — for
every live object whose clamped box crops a non-empty region of the
frame, while an object with an empty crop keeps the sentinel and
produces no log line (the log count equals the number of
non-empty-crop objects). -/
theorem sampling_policy (vs : VisionSystem) (inp : TickInput) (frame : Frame)
    (h5 : vs.emotion_every = 5) (hopen : vs.camera_open = true)
    (hf : inp.frame = some frame) (vs' : VisionSystem)
    (res : List PerObjectResult) (logs : List LogEntry)
    (hok : vs.process_frame inp = .ok (vs', res, logs)) :
    ((vs.frame_count + 1) % 5 ≠ 0 →
      (∀ r ∈ res, r.emotion = "neutral" ∧ r.confidence = 0) ∧ logs = []) ∧
      ((vs.frame_count + 1) % 5 = 0 →
        logs.length = ((vs.tracker.update inp.boxes).objects.filter
          (fun p => roiNonempty frame (clampBox p.2.box))).length ∧
        (∀ p ∈ (vs.tracker.update inp.boxes).objects,
          roiNonempty frame (clampBox p.2.box) = true →
            (⟨p.1, (vs.emotion.predict frame (clampBox p.2.box)).1,
                (vs.emotion.predict frame (clampBox p.2.box)).2⟩ : LogEntry) ∈ logs ∧
            (⟨p.1, clampBox p.2.box, (vs.emotion.predict frame (clampBox p.2.box)).1,
                (vs.emotion.predict frame (clampBox p.2.box)).2⟩ : PerObjectResult)
              ∈ res) ∧
        (∀ p ∈ (vs.tracker.update inp.boxes).objects,
          roiNonempty frame (clampBox p.2.box) = false →
            (⟨p.1, clampBox p.2.box, "neutral", 0⟩ : PerObjectResult) ∈ res)) := by
  rw [process_frame_ok vs inp frame hopen hf] at hok
  have hbody := Except.ok.inj hok
  have hres : res = (vs.tracker.update inp.boxes).objects.map
      (resultEntryFor vs frame (vs.frame_count + 1)) :=
    (congrArg (fun x => x.2.1) hbody).symm
  have hlogs : logs = (vs.tracker.update inp.boxes).objects.filterMap
      (logEntryFor vs frame (vs.frame_count + 1)) :=
    (congrArg (fun x => x.2.2) hbody).symm
  constructor
  · intro hns
    have hcond : ((vs.frame_count + 1) % vs.emotion_every == 0) = false := by
      rw [h5]
      exact beq_eq_false_iff_ne.mpr hns
    constructor
    · intro r hr
      rw [hres] at hr
      rcases List.mem_map.mp hr with ⟨p, _, hpr⟩
      rw [← hpr]
      simp [resultEntryFor, hcond]
    · rw [hlogs, List.filterMap_eq_nil_iff]
      intro p _
      simp only [logEntryFor, hcond, Bool.false_and, Bool.false_eq_true, if_false]
  · intro hs
    have hcond : ((vs.frame_count + 1) % vs.emotion_every == 0) = true := by
      rw [h5]
      exact beq_iff_eq.mpr hs
    have hlog2 : logs = ((vs.tracker.update inp.boxes).objects.filter
          (fun p => roiNonempty frame (clampBox p.2.box))).map
        (fun p => (⟨p.1, (vs.emotion.predict frame (clampBox p.2.box)).1,
            (vs.emotion.predict frame (clampBox p.2.box)).2⟩ : LogEntry)) := by
      rw [hlogs, List.filterMap_congr (g := fun p =>
          if roiNonempty frame (clampBox p.2.box) then
            some (⟨p.1, (vs.emotion.predict frame (clampBox p.2.box)).1,
              (vs.emotion.predict frame (clampBox p.2.box)).2⟩ : LogEntry)
          else none) ?_, filterMap_guard]
      intro p _
      simp only [logEntryFor, hcond, Bool.true_and]
    refine ⟨by rw [hlog2, List.length_map], ?_, ?_⟩
    · intro p hp hroi
      constructor
      · rw [hlog2]
        exact List.mem_map_of_mem _ (List.mem_filter.mpr ⟨hp, hroi⟩)
      · rw [hres]
        refine List.mem_map.mpr ⟨p, hp, ?_⟩
        simp only [resultEntryFor, hcond, hroi, Bool.true_and, if_true]
    · intro p hp hroi
      rw [hres]
      refine List.mem_map.mpr ⟨p, hp, ?_⟩
      simp only [resultEntryFor, hcond, hroi, Bool.true_and, Bool.false_eq_true, if_false]

/-- A recognizer whose classifier always answers `("happy", 1)`. -/
def recHappy : EmotionRecognizer :=
  ⟨some fun _ _ => some [[("happy", 1)]]⟩

/-- Run one tick, keeping the old state when the tick fails. -/
def stepOk (inp : TickInput) (vs : VisionSystem) : VisionSystem :=
  match vs.process_frame inp with
  | .ok (v, _, _) => v
  | .error _ => vs

/-- The result list and log lines of one tick (empty on failure). -/
def tickData (vs : VisionSystem) (inp : TickInput) :
    List PerObjectResult × List LogEntry :=
  match vs.process_frame inp with
  | .ok (_, r, l) => (r, l)
  | .error _ => ([], [])

/-- Whether one tick succeeds. -/
def tickSucceeds (vs : VisionSystem) (inp : TickInput) : Bool :=
  match vs.process_frame inp with
  | .ok _ => true
  | .error _ => false

/-- A tick whose single detection lies right of the 100×100 frame. -/
def outTick : TickInput := ⟨some camFrame, [⟨500, 0, 10, 10⟩]⟩

/-- The system after four successful ticks on `outTick`: the
out-of-frame detection is tracked as object 0 and the tick counter
stands at 4, so the next tick samples. -/
def outFrameVS : VisionSystem :=
  stepOk outTick (stepOk outTick (stepOk outTick (stepOk outTick
    (VisionSystem.start true recHappy))))

/-- C7 counterexample: on the fifth tick (counter a multiple of 5) with
one live object, the claim requires the Attribute Sampler to run and one
log line to be appended for that object; instead the tick succeeds with
zero log lines and a sentinel result — the object's clamped box starts
at `x = 500`, beyond the 100-pixel-wide frame, so its crop is empty and
the source skips both the classifier call and the log write, although
the classifier would have answered `("happy", 1)`. -/
theorem sampling_policy_counterexample :
    outFrameVS.emotion_every = 5 ∧
      (outFrameVS.frame_count + 1) % 5 = 0 ∧
      tickSucceeds outFrameVS outTick = true ∧
      (tickData outFrameVS outTick).1.length = 1 ∧
      (∀ r ∈ (tickData outFrameVS outTick).1,
        r.emotion = "neutral" ∧ r.confidence = 0) ∧
      (tickData outFrameVS outTick).2 = [] ∧
      outFrameVS.emotion.predict camFrame (clampBox ⟨500, 0, 10, 10⟩)
        = ("happy", 1) := by
  decide

/-- A tick whose single detection lies inside the 100×100 frame. -/
def inTick : TickInput := ⟨some camFrame, [⟨10, 10, 20, 20⟩]⟩

/-- The system after four successful ticks on `inTick`. -/
def inFrameVS : VisionSystem :=
  stepOk inTick (stepOk inTick (stepOk inTick (stepOk inTick
    (VisionSystem.start true recHappy))))

/-- Witness for C7 (amended) on the fifth tick of a system tracking one
in-frame object. -/
theorem sampling_policy_witness :
    (inFrameVS.emotion_every = 5 ∧ inFrameVS.camera_open = true ∧
      inTick.frame = some camFrame ∧
      inFrameVS.process_frame inTick = .ok
        (stepOk inTick inFrameVS, (tickData inFrameVS inTick).1,
          (tickData inFrameVS inTick).2)) ∧
    (((inFrameVS.frame_count + 1) % 5 ≠ 0 →
      (∀ r ∈ (tickData inFrameVS inTick).1,
        r.emotion = "neutral" ∧ r.confidence = 0) ∧
        (tickData inFrameVS inTick).2 = []) ∧
      ((inFrameVS.frame_count + 1) % 5 = 0 →
        (tickData inFrameVS inTick).2.length
            = ((inFrameVS.tracker.update inTick.boxes).objects.filter
              (fun p => roiNonempty camFrame (clampBox p.2.box))).length ∧
        (∀ p ∈ (inFrameVS.tracker.update inTick.boxes).objects,
          roiNonempty camFrame (clampBox p.2.box) = true →
            (⟨p.1, (inFrameVS.emotion.predict camFrame (clampBox p.2.box)).1,
                (inFrameVS.emotion.predict camFrame (clampBox p.2.box)).2⟩ : LogEntry)
              ∈ (tickData inFrameVS inTick).2 ∧
            (⟨p.1, clampBox p.2.box,
                (inFrameVS.emotion.predict camFrame (clampBox p.2.box)).1,
                (inFrameVS.emotion.predict camFrame (clampBox p.2.box)).2⟩ :
              PerObjectResult) ∈ (tickData inFrameVS inTick).1) ∧
        (∀ p ∈ (inFrameVS.tracker.update inTick.boxes).objects,
          roiNonempty camFrame (clampBox p.2.box) = false →
            (⟨p.1, clampBox p.2.box, "neutral", 0⟩ : PerObjectResult)
              ∈ (tickData inFrameVS inTick).1))) :=
  ⟨⟨rfl, rfl, rfl, rfl⟩,
    sampling_policy inFrameVS inTick camFrame rfl rfl rfl
      (stepOk inTick inFrameVS) (tickData inFrameVS inTick).1
      (tickData inFrameVS inTick).2 rfl⟩

/-- C9 (amended): `get_latest_data` returns the stored snapshot without
running the pipeline when the stored result list is non-empty; when it
is empty — no snapshot published yet, or the latest snapshot recorded no
objects — the call attempts exactly one pipeline tick: on success it
returns and stores that tick's results (the tick counter advances by
one), on failure it returns the stored list unchanged. -/
theorem get_latest_snapshot_policy (vs : VisionSystem) (inp : TickInput) :
    (vs.latest_data ≠ [] → vs.get_latest_data inp = (vs.latest_data, vs)) ∧
      (vs.latest_data = [] →
        (∀ out, vs.process_frame inp = .ok out →
          vs.get_latest_data inp = (out.1.latest_data, out.1) ∧
            out.1.frame_count = vs.frame_count + 1) ∧
        (∀ e, vs.process_frame inp = .error e →
          vs.get_latest_data inp = (vs.latest_data, vs))) := by
  constructor
  · intro hne
    rw [VisionSystem.get_latest_data, List.isEmpty_eq_false.mpr hne]
    simp
  · intro hemp
    constructor
    · rintro ⟨vs', res, logs⟩ hout
      obtain ⟨frame, _, hcnt, _⟩ := (process_frame_ok_inv vs inp _ hout).2
      refine ⟨?_, hcnt⟩
      rw [VisionSystem.get_latest_data, hemp]
      simp only [List.isEmpty_nil, if_true]
      rw [hout]
    · intro e he
      rw [VisionSystem.get_latest_data, hemp]
      simp only [List.isEmpty_nil, if_true]
      rw [he]

/-- A tick that reads a frame but detects nothing. -/
def emptyTick : TickInput := ⟨some camFrame, []⟩

/-- The system after one successful tick that found no faces: a
snapshot has been published (`frame_count = 1`) and it is empty. -/
def publishedVS : VisionSystem :=
  stepOk emptyTick (VisionSystem.start true recNone)

/-- C9 counterexample: a snapshot has already been published (one tick
completed, `frame_count = 1`), so the claim requires `get_latest_data`
to return it without running the pipeline; but because that snapshot's
result list is empty, the call runs another full tick (the tick counter
reaches 2). -/
theorem get_latest_counterexample :
    publishedVS.frame_count = 1 ∧
      publishedVS.latest_data = [] ∧
      (publishedVS.get_latest_data emptyTick).2.frame_count = 2 := by
  decide

/-- Witness for C9 (amended) at the published-empty-snapshot system. -/
theorem get_latest_snapshot_policy_witness :
    (publishedVS.latest_data ≠ [] →
      publishedVS.get_latest_data emptyTick = (publishedVS.latest_data, publishedVS)) ∧
      (publishedVS.latest_data = [] →
        (∀ out, publishedVS.process_frame emptyTick = .ok out →
          publishedVS.get_latest_data emptyTick = (out.1.latest_data, out.1) ∧
            out.1.frame_count = publishedVS.frame_count + 1) ∧
        (∀ e, publishedVS.process_frame emptyTick = .error e →
          publishedVS.get_latest_data emptyTick =
            (publishedVS.latest_data, publishedVS))) :=
  get_latest_snapshot_policy publishedVS emptyTick

/-- C10: `get_latest_data` never propagates a tick failure: with nothing
stored and a warm-up tick that fails (camera not open, or no frame
read), the `RuntimeError` is swallowed and the — still empty — stored
list is returned with the state unchanged. -/
theorem get_latest_swallows_failure (vs : VisionSystem) (inp : TickInput)
    (hempty : vs.latest_data = [])
    (hfail : vs.camera_open = false ∨ inp.frame = none) :
    vs.get_latest_data inp = (vs.latest_data, vs) := by
  obtain ⟨e, he⟩ := process_frame_err_of vs inp hfail
  rw [VisionSystem.get_latest_data, hempty]
  simp only [List.isEmpty_nil, if_true]
  rw [he]

/-- Witness for C10: a freshly started system whose camera failed to
open. -/
theorem get_latest_swallows_failure_witness :
    ((VisionSystem.start false recNone).latest_data = [] ∧
      ((VisionSystem.start false recNone).camera_open = false ∨
        emptyTick.frame = none)) ∧
      (VisionSystem.start false recNone).get_latest_data emptyTick
        = ((VisionSystem.start false recNone).latest_data,
            VisionSystem.start false recNone) :=
  ⟨⟨rfl, Or.inl rfl⟩,
    get_latest_swallows_failure (VisionSystem.start false recNone) emptyTick
      rfl (Or.inl rfl)⟩

end Windsuy
